import Mathlib

/-!
# String Pool Allocator — verification of the two pool-allocator implementations

Shallow embedding of the two string-pool allocators of the repository
`StringBenchmarkStlAtlPool`:

* `CStringPoolAllocator` (file `StringPool.h`): Win32 `VirtualAlloc`-based
  allocator keeping a hand-rolled singly-linked list of chunk headers, with a
  `Destroy` loop that walks the `phdrPrev` chain freeing each chunk.
* `StringPoolAllocator` (file `StringPool.hpp`): STL-based allocator keeping an
  append-only `std::vector` of fixed-size zero-initialized chunks.

Characters (`WCHAR` / `wchar_t`) are modelled as `Nat` (0 is the NUL
character).  Chunk memory is a `List Nat`; pointers into pool storage are
modelled as a pair of a chunk index (in order of acquisition) and a character
offset within that chunk's usable character array.  `m_pchNext` / `m_pchLimit`
are modelled as character offsets within the current chunk.  Sizes follow the
64-bit build: `sizeof(ChunkHeader) = 16`, `sizeof(WCHAR) = 2`.

`VirtualAlloc` / `std::make_unique` failure (out of memory) is an environment
event; it is modelled by the boolean parameter `oom` passed to each call: when
the slow path asks the system for a new chunk and `oom = true`, the
acquisition fails.  The system allocation granularity returned by
`GetSystemInfo` is the parameter `sysGran` of the Win32 constructor model.

The C++ `AllocString` functions recurse (the slow path retries the same
request once); the embedding makes the recursion explicit with a fuel
parameter, and `w32AllocString` / `stlAllocString` run with fuel 2, matching
the documented "at most one retry per call".  The theorems below prove that
fuel 2 is never exhausted, so this is faithful to the (terminating) C++
recursion.
-/

/-! ## Basic helpers -/

/-- Character read from pool storage: the character at index `i` of a chunk's
character array (reads out of bounds yield 0, the value of untouched
zero-initialized memory; all reads the theorems care about are in bounds). -/
def charAt (data : List Nat) (i : Nat) : Nat :=
  (data.drop i).headD 0

/-- `wmemcpy(dst + off, src, src.length)`: overwrite the slots
`[off, off + src.length)` of `dst` with `src`, leaving every other slot
unchanged.  The C++ call is only ever made under the fast-path bound check,
which keeps the write inside the chunk, so the truncating out-of-bounds
behaviour of this model is never exercised on reachable states. -/
def writeChars : List Nat → Nat → List Nat → List Nat
  | [], _, _ => []
  | c :: data, off + 1, ws => c :: writeChars data off ws
  | _ :: data, 0, w :: ws => w :: writeChars data 0 ws
  | c :: data, 0, [] => c :: data

/-- Replace the element at index `i` by `f` applied to it
(`std::vector` element update / write through a chunk pointer). -/
def listModify : List α → Nat → (α → α) → List α
  | [], _, _ => []
  | x :: xs, 0, f => f x :: xs
  | x :: xs, i + 1, f => x :: listModify xs i f

/-- `RoundUp(cb, units)` from `StringPool.h`:
`((cb + units - 1) / units) * units`. -/
def roundUp (cb units : Nat) : Nat :=
  ((cb + units - 1) / units) * units

/-- Failure modes of an allocation call.  Both are thrown as `std::bad_alloc`
in C++; the spec's error taxonomy distinguishes them.  `noFuel` is the
out-of-fuel marker of the embedding; the termination theorem shows it never
occurs at fuel 2. -/
inductive AllocError where
  | allocationTooLarge
  | outOfMemory
  | noFuel
  deriving Repr, DecidableEq

/-- A pointer returned by `AllocString`, as a pool location: the index of the
chunk it points into (chunks numbered in order of acquisition) and the
character offset within that chunk's character array. -/
structure StrRef where
  chunkId : Nat
  off : Nat
  deriving Repr, DecidableEq

/-! ## Win32 implementation (`CStringPoolAllocator`, StringPool.h) -/

/-- `sizeof(ChunkHeader)` on the 64-bit build: a pointer plus a `SIZE_T`. -/
def sizeofChunkHeader : Nat := 16

/-- `kcbDefaultMinChunkSize = 512 * 1024` (bytes). -/
def kcbDefaultMinChunkSize : Nat := 512 * 1024

/-- `kchMaxCharAlloc = 1024 * 1024` (characters). -/
def kchMaxCharAlloc : Nat := 1024 * 1024

/-- One chunk of `CStringPoolAllocator`: its usable character array (the
`WCHAR`s following the header) and its `phdrPrev` field (the index of the
previously current chunk, `none` for `nullptr`). -/
structure W32Chunk where
  data : List Nat
  prev : Option Nat
  deriving Repr, DecidableEq

/-- State of a `CStringPoolAllocator`.  `chunks` lists every chunk acquired so
far, in order of acquisition (the list position is the chunk's index, the
model's stand-in for its address).  `currentId` is `m_phdrCurrent` (`none` for
`nullptr`); `next` and `limit` are `m_pchNext` and `m_pchLimit` as character
offsets into the current chunk's character array; `gran` is
`m_cbGranularity` in bytes. -/
structure W32State where
  chunks : List W32Chunk
  currentId : Option Nat
  next : Nat
  limit : Nat
  gran : Nat
  deriving Repr, DecidableEq

/-- `GetAllocationGranularity`: the next multiple of the system allocation
granularity `sysGran` that is at least `sizeof(ChunkHeader) + cbMinChunkSize`. -/
def getAllocationGranularity (sysGran cbMinChunkSize : Nat) : Nat :=
  roundUp (sizeofChunkHeader + cbMinChunkSize) sysGran

/-- The state built by the `CStringPoolAllocator(cbMinChunkSize)` constructor
(the default constructor is `w32Init sysGran kcbDefaultMinChunkSize`). -/
def w32Init (sysGran cbMinChunkSize : Nat) : W32State :=
  { chunks := [], currentId := none, next := 0, limit := 0,
    gran := getAllocationGranularity sysGran cbMinChunkSize }

/-- Character capacity of a new chunk acquired for a request of `cch`
characters: the chunk takes `cbAlloc = RoundUp(cch * sizeof(WCHAR) +
sizeof(ChunkHeader), gran)` bytes, of which the bytes past the header hold
`(cbAlloc - 16) / 2` full `WCHAR` slots.  The byte-level pointer comparison
`m_pchNext + cch <= m_pchLimit` coincides with comparing character offsets
against this capacity. -/
def w32CapFor (gran cch : Nat) : Nat :=
  (roundUp (cch * 2 + sizeofChunkHeader) gran - sizeofChunkHeader) / 2

/-- Fast path of `CStringPoolAllocator::AllocString`: carve `cch =
s.length + 1` characters at `next` from the current chunk, copying the
`cch - 1` source characters and leaving the pre-zeroed slot at
`next + cch - 1` as the terminating NUL. -/
def w32FastState (st : W32State) (s : List Nat) : W32State :=
  { st with
    chunks := listModify st.chunks (st.currentId.getD 0)
      (fun c => { c with data := writeChars c.data st.next s }),
    next := st.next + (s.length + 1) }

/-- Slow path of `CStringPoolAllocator::AllocString`: acquire a zero-initialized
chunk of `RoundUp(cch * sizeof(WCHAR) + sizeof(ChunkHeader), m_cbGranularity)`
bytes via `VirtualAlloc`, link it (`phdrPrev := m_phdrCurrent`), make it
current and reset `next`/`limit` to span its character array. -/
def w32GrowState (st : W32State) (cch : Nat) : W32State :=
  { st with
    chunks := st.chunks ++ [⟨List.replicate (w32CapFor st.gran cch) 0, st.currentId⟩],
    currentId := some st.chunks.length,
    next := 0,
    limit := w32CapFor st.gran cch }

/-- `CStringPoolAllocator::AllocString(pchBegin, pchEnd)` with explicit fuel
for the retry recursion; `s` is the character range `[pchBegin, pchEnd)`,
so `cch = s.length + 1`. -/
def w32AllocStringFuel (oom : Bool) : Nat → W32State → List Nat →
    W32State × Except AllocError StrRef
  | 0, st, _ => (st, Except.error AllocError.noFuel)
  | fuel + 1, st, s =>
    if st.next + (s.length + 1) ≤ st.limit then
      (w32FastState st s, Except.ok ⟨st.currentId.getD 0, st.next⟩)
    else if kchMaxCharAlloc < s.length + 1 then
      (st, Except.error AllocError.allocationTooLarge)
    else if oom then
      (st, Except.error AllocError.outOfMemory)
    else
      w32AllocStringFuel oom fuel (w32GrowState st (s.length + 1)) s

/-- `CStringPoolAllocator::AllocString(pchBegin, pchEnd)`: the C++ function
retries at most once, i.e. runs at recursion depth at most 2. -/
def w32AllocString (oom : Bool) (st : W32State) (s : List Nat) :
    W32State × Except AllocError StrRef :=
  w32AllocStringFuel oom 2 st s

/-- `CStringPoolAllocator::AllocString(pszSource)`: delegates to the range
form on `[pszSource, pszSource + wcslen(pszSource))`. -/
def w32AllocStringZ (oom : Bool) (st : W32State) (sz : List Nat) :
    W32State × Except AllocError StrRef :=
  w32AllocString oom st (sz.takeWhile (· ≠ 0))

/-- The loop of `CStringPoolAllocator::Destroy`: starting from
`m_phdrCurrent`, record each chunk passed to `VirtualFree(phdr, 0,
MEM_RELEASE)` and continue with the `phdrPrev` saved before the free.  The
fuel bounds the walk; the teardown theorem shows that on reachable states the
chain is finished within `chunks.length` steps. -/
def w32FreeOrder (chunks : List W32Chunk) : Nat → Option Nat → List Nat
  | 0, _ => []
  | _ + 1, none => []
  | fuel + 1, some id => id :: w32FreeOrder chunks fuel ((chunks.getD id ⟨[], none⟩).prev)

/-- `CStringPoolAllocator::Destroy`: the sequence of chunks released (in
order) and the reset state (`m_pchNext = m_pchLimit = nullptr`,
`m_phdrCurrent = nullptr`; the freed chunks are gone). -/
def w32Destroy (st : W32State) : List Nat × W32State :=
  (w32FreeOrder st.chunks st.chunks.length st.currentId,
   { st with chunks := [], currentId := none, next := 0, limit := 0 })

/-- States reachable from a constructor call by `AllocString` calls (with the
environment free to fail any chunk acquisition). -/
inductive W32Reachable : W32State → Prop where
  | init (sysGran cbMinChunkSize : Nat) :
      W32Reachable (w32Init sysGran cbMinChunkSize)
  | step (oom : Bool) (st : W32State) (s : List Nat) :
      W32Reachable st → W32Reachable (w32AllocString oom st s).1

/-- `W32ReachableFrom st st2`: state `st2` arises from state `st` by some
(possibly empty) further sequence of `AllocString` calls, each free to hit an
acquisition failure. -/
inductive W32ReachableFrom : W32State → W32State → Prop where
  | refl (st : W32State) : W32ReachableFrom st st
  | step (oom : Bool) (st st1 : W32State) (s : List Nat) :
      W32ReachableFrom st st1 → W32ReachableFrom st (w32AllocString oom st1 s).1

/-- The character array of the chunk at index `cid` ( `[]` when out of
bounds). -/
def w32ChunkData (st : W32State) (cid : Nat) : List Nat :=
  (st.chunks.getD cid ⟨[], none⟩).data

/-- The character array of the current chunk (`[]` when `m_phdrCurrent` is
null). -/
def w32CurData (st : W32State) : List Nat :=
  match st.currentId with
  | none => []
  | some cid => w32ChunkData st cid

/-- Reading back an allocated string `r` against its source `s`: the region
is in bounds, the `s.length` characters at `r.off` equal `s`
character-for-character, and the slot at offset `s.length` holds the
terminating NUL. -/
def w32ReadBack (st : W32State) (r : StrRef) (s : List Nat) : Prop :=
  r.chunkId < st.chunks.length ∧
  r.off + s.length < (w32ChunkData st r.chunkId).length ∧
  (∀ i, i < s.length → charAt (w32ChunkData st r.chunkId) (r.off + i) = s.getD i 0) ∧
  charAt (w32ChunkData st r.chunkId) (r.off + s.length) = 0

/-! ## STL implementation (`StringPoolAllocator`, StringPool.hpp) -/

/-- `kMaxStringLengthCch = 100 * 1000` (characters). -/
def kMaxStringLengthCch : Nat := 100 * 1000

/-- `kChunkSizeCch = 250 * 1000` (characters). -/
def kChunkSizeCch : Nat := 250 * 1000

/-- State of a `StringPoolAllocator`: the `m_chunks` vector (each entry the
chunk's character array), `m_pCurrent` as an index into the vector (`none`
for `nullptr`), and `m_pchNext` / `m_pchLimit` as character offsets into the
current chunk. -/
structure StlState where
  chunks : List (List Nat)
  current : Option Nat
  next : Nat
  limit : Nat
  deriving Repr, DecidableEq

/-- The state built by the `StringPoolAllocator()` constructor. -/
def stlInit : StlState :=
  { chunks := [], current := none, next := 0, limit := 0 }

/-- Fast path of `StringPoolAllocator::AllocString`. -/
def stlFastState (st : StlState) (s : List Nat) : StlState :=
  { st with
    chunks := listModify st.chunks (st.current.getD 0)
      (fun data => writeChars data st.next s),
    next := st.next + (s.length + 1) }

/-- Slow path of `StringPoolAllocator::AllocString`:
`m_chunks.push_back(Chunk{})` (a `kChunkSizeCch`-character zero-filled
chunk), then point `m_pCurrent` / `m_pchNext` / `m_pchLimit` at it. -/
def stlGrowState (st : StlState) : StlState :=
  { chunks := st.chunks ++ [List.replicate kChunkSizeCch 0],
    current := some st.chunks.length,
    next := 0,
    limit := kChunkSizeCch }

/-- `StringPoolAllocator::AllocString(pchBegin, pchEnd)` with explicit fuel
for the retry recursion.  Note the length-limit check comes *before* the
fast path in this implementation. -/
def stlAllocStringFuel (oom : Bool) : Nat → StlState → List Nat →
    StlState × Except AllocError StrRef
  | 0, st, _ => (st, Except.error AllocError.noFuel)
  | fuel + 1, st, s =>
    if kMaxStringLengthCch < s.length + 1 then
      (st, Except.error AllocError.allocationTooLarge)
    else if st.next + (s.length + 1) ≤ st.limit then
      (stlFastState st s, Except.ok ⟨st.current.getD 0, st.next⟩)
    else if oom then
      (st, Except.error AllocError.outOfMemory)
    else
      stlAllocStringFuel oom fuel (stlGrowState st) s

/-- `StringPoolAllocator::AllocString(pchBegin, pchEnd)` (at most one
retry). -/
def stlAllocString (oom : Bool) (st : StlState) (s : List Nat) :
    StlState × Except AllocError StrRef :=
  stlAllocStringFuel oom 2 st s

/-- `StringPoolAllocator::AllocString(pszSource)`. -/
def stlAllocStringZ (oom : Bool) (st : StlState) (sz : List Nat) :
    StlState × Except AllocError StrRef :=
  stlAllocString oom st (sz.takeWhile (· ≠ 0))

/-- States reachable from the `StringPoolAllocator()` constructor by
`AllocString` calls. -/
inductive StlReachable : StlState → Prop where
  | init : StlReachable stlInit
  | step (oom : Bool) (st : StlState) (s : List Nat) :
      StlReachable st → StlReachable (stlAllocString oom st s).1

/-- STL counterpart of `W32ReachableFrom`. -/
inductive StlReachableFrom : StlState → StlState → Prop where
  | refl (st : StlState) : StlReachableFrom st st
  | step (oom : Bool) (st st1 : StlState) (s : List Nat) :
      StlReachableFrom st st1 → StlReachableFrom st (stlAllocString oom st1 s).1

/-- The character array of the chunk at index `cid`. -/
def stlChunkData (st : StlState) (cid : Nat) : List Nat :=
  st.chunks.getD cid []

/-- The character array of the current chunk. -/
def stlCurData (st : StlState) : List Nat :=
  match st.current with
  | none => []
  | some cid => stlChunkData st cid

/-- Reading back an allocated string `r` against its source `s` (STL
implementation). -/
def stlReadBack (st : StlState) (r : StrRef) (s : List Nat) : Prop :=
  r.chunkId < st.chunks.length ∧
  r.off + s.length < (stlChunkData st r.chunkId).length ∧
  (∀ i, i < s.length → charAt (stlChunkData st r.chunkId) (r.off + i) = s.getD i 0) ∧
  charAt (stlChunkData st r.chunkId) (r.off + s.length) = 0

/-! ## Invariants, settled references, and call sequences (definitions) -/

/-- Invariant of `CStringPoolAllocator` states: the current chunk is the most
recently acquired one (`none` exactly while no chunk exists); the `phdrPrev`
chain links each chunk to the one acquired just before it; `next ≤ limit`;
`limit` is the current chunk's character capacity; and every slot of the
current chunk from `next` up to `limit` still holds the NUL character of the
zero-initialized chunk memory. -/
structure W32Inv (st : W32State) : Prop where
  cur_eq : st.currentId = if st.chunks.length = 0 then none else some (st.chunks.length - 1)
  prev_eq : ∀ i, i < st.chunks.length →
    (st.chunks.getD i ⟨[], none⟩).prev = if i = 0 then none else some (i - 1)
  next_le : st.next ≤ st.limit
  limit_eq : st.limit = (w32CurData st).length
  zeros : ∀ j, st.next ≤ j → j < st.limit → charAt (w32CurData st) j = 0

/-- Invariant of `StringPoolAllocator` states. -/
structure StlInv (st : StlState) : Prop where
  cur_eq : st.current = if st.chunks.length = 0 then none else some (st.chunks.length - 1)
  next_le : st.next ≤ st.limit
  limit_eq : st.limit = (stlCurData st).length
  zeros : ∀ j, st.next ≤ j → j < st.limit → charAt (stlCurData st) j = 0

/-- A previously returned string reference `r` with source `s` is *settled* in
state `st`: it reads back correctly, and if it lives in the current chunk its
region (including the NUL slot) lies strictly below the bump cursor, so no
future write can touch it. -/
def W32Settled (st : W32State) (r : StrRef) (s : List Nat) : Prop :=
  w32ReadBack st r s ∧
  (r.chunkId + 1 = st.chunks.length → r.off + s.length < st.next)

/-- STL counterpart of `W32Settled`. -/
def StlSettled (st : StlState) (r : StrRef) (s : List Nat) : Prop :=
  stlReadBack st r s ∧
  (r.chunkId + 1 = st.chunks.length → r.off + s.length < st.next)

/-- Run a sequence of `AllocString(begin, end)` calls on a
`CStringPoolAllocator` (with memory available), collecting each call's
result. -/
def w32Run : W32State → List (List Nat) → W32State × List (Except AllocError StrRef)
  | st, [] => (st, [])
  | st, s :: rest =>
    ((w32Run (w32AllocString false st s).1 rest).1,
     (w32AllocString false st s).2 :: (w32Run (w32AllocString false st s).1 rest).2)

/-- Run a sequence of `AllocString(begin, end)` calls on a
`StringPoolAllocator` (with memory available). -/
def stlRun : StlState → List (List Nat) → StlState × List (Except AllocError StrRef)
  | st, [] => (st, [])
  | st, s :: rest =>
    ((stlRun (stlAllocString false st s).1 rest).1,
     (stlAllocString false st s).2 :: (stlRun (stlAllocString false st s).1 rest).2)

/-! ## Helper lemmas: `charAt`, `writeChars`, `listModify`, `getD`, `roundUp` -/

theorem charAt_nil (i : Nat) : charAt [] i = 0 := by
  simp [charAt]

theorem charAt_cons_zero (c : Nat) (l : List Nat) : charAt (c :: l) 0 = c := rfl

theorem charAt_cons_succ (c : Nat) (l : List Nat) (j : Nat) :
    charAt (c :: l) (j + 1) = charAt l j := rfl

theorem charAt_replicate_zero (n i : Nat) : charAt (List.replicate n 0) i = 0 := by
  induction n generalizing i with
  | zero => simp [charAt]
  | succ n ih =>
    rw [List.replicate_succ]
    cases i with
    | zero => exact charAt_cons_zero _ _
    | succ j => rw [charAt_cons_succ]; exact ih j

theorem writeChars_nil_src (data : List Nat) (off : Nat) :
    writeChars data off [] = data := by
  induction data generalizing off with
  | nil => rfl
  | cons c d ih =>
    cases off with
    | zero => rfl
    | succ off2 => show c :: writeChars d off2 [] = c :: d; rw [ih]

theorem length_writeChars (data : List Nat) (off : Nat) (s : List Nat) :
    (writeChars data off s).length = data.length := by
  induction data generalizing off s with
  | nil => rfl
  | cons c d ih =>
    cases off with
    | succ off2 => simpa [writeChars] using ih off2 s
    | zero =>
      cases s with
      | nil => rfl
      | cons w ws => simpa [writeChars] using ih 0 ws

theorem charAt_writeChars_lt (data : List Nat) (off : Nat) (s : List Nat) (j : Nat)
    (h : j < off) : charAt (writeChars data off s) j = charAt data j := by
  induction data generalizing off s j with
  | nil => rfl
  | cons c d ih =>
    cases off with
    | zero => omega
    | succ off2 =>
      show charAt (c :: writeChars d off2 s) j = _
      cases j with
      | zero => rfl
      | succ j2 =>
        rw [charAt_cons_succ, charAt_cons_succ]
        exact ih off2 s j2 (by omega)

theorem charAt_writeChars_ge (data : List Nat) (off : Nat) (s : List Nat) (j : Nat)
    (h : off + s.length ≤ j) : charAt (writeChars data off s) j = charAt data j := by
  induction data generalizing off s j with
  | nil => rfl
  | cons c d ih =>
    cases off with
    | succ off2 =>
      show charAt (c :: writeChars d off2 s) j = _
      cases j with
      | zero => omega
      | succ j2 =>
        rw [charAt_cons_succ, charAt_cons_succ]
        exact ih off2 s j2 (by omega)
    | zero =>
      cases s with
      | nil => rw [writeChars_nil_src]
      | cons w ws =>
        show charAt (w :: writeChars d 0 ws) j = _
        cases j with
        | zero => simp at h
        | succ j2 =>
          rw [charAt_cons_succ, charAt_cons_succ]
          exact ih 0 ws j2 (by simp at h; omega)

theorem charAt_writeChars_in (data : List Nat) (off : Nat) (s : List Nat) (i : Nat)
    (h1 : i < s.length) (h2 : off + i < data.length) :
    charAt (writeChars data off s) (off + i) = s.getD i 0 := by
  induction data generalizing off s i with
  | nil => simp at h2
  | cons c d ih =>
    cases off with
    | succ off2 =>
      show charAt (c :: writeChars d off2 s) (off2 + 1 + i) = _
      have heq : off2 + 1 + i = (off2 + i) + 1 := by omega
      rw [heq, charAt_cons_succ]
      exact ih off2 s i h1 (by simp at h2 ⊢; omega)
    | zero =>
      cases s with
      | nil => simp at h1
      | cons w ws =>
        show charAt (w :: writeChars d 0 ws) (0 + i) = _
        cases i with
        | zero => rfl
        | succ i2 =>
          have heq : 0 + (i2 + 1) = i2 + 1 := by omega
          rw [heq, charAt_cons_succ, List.getD_cons_succ]
          have := ih 0 ws i2 (by simp at h1; omega) (by simp at h2; omega)
          simpa using this

theorem length_listModify (l : List α) (i : Nat) (f : α → α) :
    (listModify l i f).length = l.length := by
  induction l generalizing i with
  | nil => rfl
  | cons x xs ih =>
    cases i with
    | zero => rfl
    | succ i2 => simpa [listModify] using ih i2

theorem getD_listModify_eq (l : List α) (i : Nat) (f : α → α) (d : α)
    (h : i < l.length) : (listModify l i f).getD i d = f (l.getD i d) := by
  induction l generalizing i with
  | nil => simp at h
  | cons x xs ih =>
    cases i with
    | zero => rfl
    | succ i2 =>
      show (x :: listModify xs i2 f).getD (i2 + 1) d = _
      rw [List.getD_cons_succ, List.getD_cons_succ]
      exact ih i2 (by simp at h; omega)

theorem getD_listModify_ne (l : List α) (i j : Nat) (f : α → α) (d : α)
    (h : j ≠ i) : (listModify l i f).getD j d = l.getD j d := by
  induction l generalizing i j with
  | nil => rfl
  | cons x xs ih =>
    cases i with
    | zero =>
      cases j with
      | zero => omega
      | succ j2 => rfl
    | succ i2 =>
      cases j with
      | zero => rfl
      | succ j2 =>
        show (x :: listModify xs i2 f).getD (j2 + 1) d = _
        rw [List.getD_cons_succ, List.getD_cons_succ]
        exact ih i2 j2 (by omega)

theorem getD_append_lt (l1 l2 : List α) (i : Nat) (d : α) (h : i < l1.length) :
    (l1 ++ l2).getD i d = l1.getD i d := by
  induction l1 generalizing i with
  | nil => simp at h
  | cons x xs ih =>
    cases i with
    | zero => rfl
    | succ i2 =>
      show (x :: (xs ++ l2)).getD (i2 + 1) d = _
      rw [List.getD_cons_succ, List.getD_cons_succ]
      exact ih i2 (by simp at h; omega)

theorem getD_append_len (l1 l2 : List α) (x : α) (d : α) :
    (l1 ++ x :: l2).getD l1.length d = x := by
  induction l1 with
  | nil => rfl
  | cons y ys ih =>
    show (y :: (ys ++ x :: l2)).getD (ys.length + 1) d = x
    rw [List.getD_cons_succ]
    exact ih

theorem le_roundUp (cb units : Nat) (h : 0 < units) : cb ≤ roundUp cb units := by
  have h1 := Nat.div_add_mod (cb + units - 1) units
  have h2 : (cb + units - 1) % units < units := Nat.mod_lt _ h
  have h3 : roundUp cb units = units * ((cb + units - 1) / units) := Nat.mul_comm _ _
  rw [h3]
  omega

theorem le_w32CapFor (gran cch : Nat) (h : 0 < gran) : cch ≤ w32CapFor gran cch := by
  have h1 := le_roundUp (cch * 2 + sizeofChunkHeader) gran h
  have h2 : cch * 2 ≤ roundUp (cch * 2 + sizeofChunkHeader) gran - sizeofChunkHeader := by
    unfold sizeofChunkHeader at *
    omega
  unfold w32CapFor
  exact (Nat.le_div_iff_mul_le (by norm_num)).mpr h2

/-! ## Branch lemmas for `AllocString` (Win32) -/

theorem w32AllocFuel_fast (oom : Bool) (fuel : Nat) (st : W32State) (s : List Nat)
    (h : st.next + (s.length + 1) ≤ st.limit) :
    w32AllocStringFuel oom (fuel + 1) st s =
      (w32FastState st s, Except.ok ⟨st.currentId.getD 0, st.next⟩) := by
  rw [w32AllocStringFuel, if_pos h]

theorem w32AllocFuel_tooLarge (oom : Bool) (fuel : Nat) (st : W32State) (s : List Nat)
    (h1 : st.limit < st.next + (s.length + 1)) (h2 : kchMaxCharAlloc < s.length + 1) :
    w32AllocStringFuel oom (fuel + 1) st s =
      (st, Except.error AllocError.allocationTooLarge) := by
  rw [w32AllocStringFuel, if_neg (by omega), if_pos h2]

theorem w32AllocFuel_oom (fuel : Nat) (st : W32State) (s : List Nat)
    (h1 : st.limit < st.next + (s.length + 1)) (h2 : s.length + 1 ≤ kchMaxCharAlloc) :
    w32AllocStringFuel true (fuel + 1) st s =
      (st, Except.error AllocError.outOfMemory) := by
  rw [w32AllocStringFuel, if_neg (by omega), if_neg (by omega)]
  simp

theorem w32AllocFuel_grow (fuel : Nat) (st : W32State) (s : List Nat)
    (h1 : st.limit < st.next + (s.length + 1)) (h2 : s.length + 1 ≤ kchMaxCharAlloc) :
    w32AllocStringFuel false (fuel + 1) st s =
      w32AllocStringFuel false fuel (w32GrowState st (s.length + 1)) s := by
  rw [w32AllocStringFuel, if_neg (by omega), if_neg (by omega)]
  simp

theorem w32Alloc_fast (oom : Bool) (st : W32State) (s : List Nat)
    (h : st.next + (s.length + 1) ≤ st.limit) :
    w32AllocString oom st s =
      (w32FastState st s, Except.ok ⟨st.currentId.getD 0, st.next⟩) :=
  w32AllocFuel_fast oom 1 st s h

theorem w32Alloc_tooLarge (oom : Bool) (st : W32State) (s : List Nat)
    (h1 : st.limit < st.next + (s.length + 1)) (h2 : kchMaxCharAlloc < s.length + 1) :
    w32AllocString oom st s = (st, Except.error AllocError.allocationTooLarge) :=
  w32AllocFuel_tooLarge oom 1 st s h1 h2

theorem w32Alloc_oom (st : W32State) (s : List Nat)
    (h1 : st.limit < st.next + (s.length + 1)) (h2 : s.length + 1 ≤ kchMaxCharAlloc) :
    w32AllocString true st s = (st, Except.error AllocError.outOfMemory) :=
  w32AllocFuel_oom 1 st s h1 h2

theorem w32Alloc_slow (st : W32State) (s : List Nat)
    (h1 : st.limit < st.next + (s.length + 1)) (h2 : s.length + 1 ≤ kchMaxCharAlloc)
    (hg : 0 < st.gran) :
    w32AllocString false st s =
      (w32FastState (w32GrowState st (s.length + 1)) s,
       Except.ok ⟨st.chunks.length, 0⟩) := by
  rw [w32AllocString, w32AllocFuel_grow 1 st s h1 h2]
  have hcap : (w32GrowState st (s.length + 1)).next + (s.length + 1) ≤
      (w32GrowState st (s.length + 1)).limit := by
    show 0 + (s.length + 1) ≤ w32CapFor st.gran (s.length + 1)
    have := le_w32CapFor st.gran (s.length + 1) hg
    omega
  rw [w32AllocFuel_fast false 0 _ s hcap]
  rfl

/-! ## Branch lemmas for `AllocString` (STL) -/

theorem stlAllocFuel_tooLarge (oom : Bool) (fuel : Nat) (st : StlState) (s : List Nat)
    (h : kMaxStringLengthCch < s.length + 1) :
    stlAllocStringFuel oom (fuel + 1) st s =
      (st, Except.error AllocError.allocationTooLarge) := by
  rw [stlAllocStringFuel, if_pos h]

theorem stlAllocFuel_fast (oom : Bool) (fuel : Nat) (st : StlState) (s : List Nat)
    (h1 : s.length + 1 ≤ kMaxStringLengthCch) (h2 : st.next + (s.length + 1) ≤ st.limit) :
    stlAllocStringFuel oom (fuel + 1) st s =
      (stlFastState st s, Except.ok ⟨st.current.getD 0, st.next⟩) := by
  rw [stlAllocStringFuel, if_neg (by omega), if_pos h2]

theorem stlAllocFuel_oom (fuel : Nat) (st : StlState) (s : List Nat)
    (h1 : s.length + 1 ≤ kMaxStringLengthCch) (h2 : st.limit < st.next + (s.length + 1)) :
    stlAllocStringFuel true (fuel + 1) st s =
      (st, Except.error AllocError.outOfMemory) := by
  rw [stlAllocStringFuel, if_neg (by omega), if_neg (by omega)]
  simp

theorem stlAllocFuel_grow (fuel : Nat) (st : StlState) (s : List Nat)
    (h1 : s.length + 1 ≤ kMaxStringLengthCch) (h2 : st.limit < st.next + (s.length + 1)) :
    stlAllocStringFuel false (fuel + 1) st s =
      stlAllocStringFuel false fuel (stlGrowState st) s := by
  rw [stlAllocStringFuel, if_neg (by omega), if_neg (by omega)]
  simp

theorem stlAlloc_tooLarge (oom : Bool) (st : StlState) (s : List Nat)
    (h : kMaxStringLengthCch < s.length + 1) :
    stlAllocString oom st s = (st, Except.error AllocError.allocationTooLarge) :=
  stlAllocFuel_tooLarge oom 1 st s h

theorem stlAlloc_fast (oom : Bool) (st : StlState) (s : List Nat)
    (h1 : s.length + 1 ≤ kMaxStringLengthCch) (h2 : st.next + (s.length + 1) ≤ st.limit) :
    stlAllocString oom st s =
      (stlFastState st s, Except.ok ⟨st.current.getD 0, st.next⟩) :=
  stlAllocFuel_fast oom 1 st s h1 h2

theorem stlAlloc_oom (st : StlState) (s : List Nat)
    (h1 : s.length + 1 ≤ kMaxStringLengthCch) (h2 : st.limit < st.next + (s.length + 1)) :
    stlAllocString true st s = (st, Except.error AllocError.outOfMemory) :=
  stlAllocFuel_oom 1 st s h1 h2

theorem stlAlloc_slow (st : StlState) (s : List Nat)
    (h1 : s.length + 1 ≤ kMaxStringLengthCch) (h2 : st.limit < st.next + (s.length + 1)) :
    stlAllocString false st s =
      (stlFastState (stlGrowState st) s, Except.ok ⟨st.chunks.length, 0⟩) := by
  rw [stlAllocString, stlAllocFuel_grow 1 st s h1 h2]
  have hcap : (stlGrowState st).next + (s.length + 1) ≤ (stlGrowState st).limit := by
    show 0 + (s.length + 1) ≤ kChunkSizeCch
    unfold kMaxStringLengthCch at h1
    unfold kChunkSizeCch
    omega
  rw [stlAllocFuel_fast false 0 _ s h1 hcap]
  rfl

/-! ## Invariants of reachable states -/

theorem w32Inv_init (sysGran cbMinChunkSize : Nat) :
    W32Inv (w32Init sysGran cbMinChunkSize) := by
  constructor <;> simp [w32Init, w32CurData]

theorem stlInv_init : StlInv stlInit := by
  constructor <;> simp [stlInit, stlCurData]

/-- On the fast path the current chunk exists and is the last one. -/
theorem w32Inv_current_some (st : W32State) (hInv : W32Inv st)
    (hpos : 0 < st.limit) :
    st.currentId = some (st.chunks.length - 1) ∧ 0 < st.chunks.length := by
  rcases Nat.eq_zero_or_pos st.chunks.length with h0 | hpos2
  · exfalso
    have hc := hInv.cur_eq
    rw [h0] at hc
    simp at hc
    have hl := hInv.limit_eq
    simp [w32CurData, hc] at hl
    omega
  · refine ⟨?_, hpos2⟩
    have hc := hInv.cur_eq
    rw [if_neg (by omega)] at hc
    exact hc

theorem stlInv_current_some (st : StlState) (hInv : StlInv st)
    (hpos : 0 < st.limit) :
    st.current = some (st.chunks.length - 1) ∧ 0 < st.chunks.length := by
  rcases Nat.eq_zero_or_pos st.chunks.length with h0 | hpos2
  · exfalso
    have hc := hInv.cur_eq
    rw [h0] at hc
    simp at hc
    have hl := hInv.limit_eq
    simp [stlCurData, hc] at hl
    omega
  · refine ⟨?_, hpos2⟩
    have hc := hInv.cur_eq
    rw [if_neg (by omega)] at hc
    exact hc

/-- The current chunk data after a fast-path allocation. -/
theorem w32CurData_fast (st : W32State) (s : List Nat) (hInv : W32Inv st)
    (h : st.next + (s.length + 1) ≤ st.limit) :
    w32CurData (w32FastState st s) = writeChars (w32CurData st) st.next s := by
  obtain ⟨hcur, hpos⟩ := w32Inv_current_some st hInv (by omega)
  have hlt : st.chunks.length - 1 < st.chunks.length := by omega
  simp only [w32CurData, w32FastState, hcur, Option.getD_some, w32ChunkData]
  rw [getD_listModify_eq _ _ _ _ hlt]

theorem stlCurData_fast (st : StlState) (s : List Nat) (hInv : StlInv st)
    (h : st.next + (s.length + 1) ≤ st.limit) :
    stlCurData (stlFastState st s) = writeChars (stlCurData st) st.next s := by
  obtain ⟨hcur, hpos⟩ := stlInv_current_some st hInv (by omega)
  have hlt : st.chunks.length - 1 < st.chunks.length := by omega
  simp only [stlCurData, stlFastState, hcur, Option.getD_some, stlChunkData]
  rw [getD_listModify_eq _ _ _ _ hlt]

theorem w32Inv_fast (st : W32State) (s : List Nat) (hInv : W32Inv st)
    (h : st.next + (s.length + 1) ≤ st.limit) :
    W32Inv (w32FastState st s) := by
  obtain ⟨hcur, hpos⟩ := w32Inv_current_some st hInv (by omega)
  have hdata := w32CurData_fast st s hInv h
  constructor
  · show st.currentId = _
    rw [hInv.cur_eq]
    simp [w32FastState, length_listModify]
  · intro i hi
    simp only [w32FastState] at hi ⊢
    rw [length_listModify] at hi
    by_cases he : i = st.currentId.getD 0
    · subst he
      rw [getD_listModify_eq _ _ _ _ hi]
      exact hInv.prev_eq _ hi
    · rw [getD_listModify_ne _ _ _ _ _ he]
      exact hInv.prev_eq _ hi
  · show st.next + (s.length + 1) ≤ st.limit
    exact h
  · show st.limit = _
    rw [hdata, length_writeChars]
    exact hInv.limit_eq
  · intro j hj1 hj2
    simp only [w32FastState] at hj1 hj2
    rw [hdata, charAt_writeChars_ge _ _ _ _ (by omega)]
    exact hInv.zeros j (by omega) hj2

theorem stlInv_fast (st : StlState) (s : List Nat) (hInv : StlInv st)
    (h : st.next + (s.length + 1) ≤ st.limit) :
    StlInv (stlFastState st s) := by
  obtain ⟨hcur, hpos⟩ := stlInv_current_some st hInv (by omega)
  have hdata := stlCurData_fast st s hInv h
  constructor
  · show st.current = _
    rw [hInv.cur_eq]
    simp [stlFastState, length_listModify]
  · show st.next + (s.length + 1) ≤ st.limit
    exact h
  · show st.limit = _
    rw [hdata, length_writeChars]
    exact hInv.limit_eq
  · intro j hj1 hj2
    simp only [stlFastState] at hj1 hj2
    rw [hdata, charAt_writeChars_ge _ _ _ _ (by omega)]
    exact hInv.zeros j (by omega) hj2

theorem w32CurData_grow (st : W32State) (cch : Nat) :
    w32CurData (w32GrowState st cch) = List.replicate (w32CapFor st.gran cch) 0 := by
  simp only [w32CurData, w32GrowState, w32ChunkData]
  rw [getD_append_len]

theorem stlCurData_grow (st : StlState) :
    stlCurData (stlGrowState st) = List.replicate kChunkSizeCch 0 := by
  simp only [stlCurData, stlGrowState, stlChunkData]
  rw [getD_append_len]

theorem w32Inv_grow (st : W32State) (cch : Nat) (hInv : W32Inv st) :
    W32Inv (w32GrowState st cch) := by
  constructor
  · show some st.chunks.length = _
    simp [w32GrowState]
  · intro i hi
    simp only [w32GrowState, List.length_append, List.length_cons, List.length_nil] at hi
    rcases Nat.lt_or_ge i st.chunks.length with hlt | hge
    · show ((st.chunks ++ _).getD i _).prev = _
      rw [getD_append_lt _ _ _ _ hlt]
      exact hInv.prev_eq i hlt
    · have hieq : i = st.chunks.length := by omega
      subst hieq
      show ((st.chunks ++ _).getD st.chunks.length _).prev = _
      rw [getD_append_len]
      exact hInv.cur_eq
  · show 0 ≤ _
    omega
  · show w32CapFor st.gran cch = _
    rw [w32CurData_grow, List.length_replicate]
  · intro j hj1 hj2
    rw [w32CurData_grow, charAt_replicate_zero]

theorem stlInv_grow (st : StlState) (_hInv : StlInv st) :
    StlInv (stlGrowState st) := by
  constructor
  · show some st.chunks.length = _
    simp [stlGrowState]
  · show 0 ≤ _
    omega
  · show kChunkSizeCch = _
    rw [stlCurData_grow, List.length_replicate]
  · intro j hj1 hj2
    rw [stlCurData_grow, charAt_replicate_zero]

theorem w32Inv_fuel (oom : Bool) (fuel : Nat) (st : W32State) (s : List Nat)
    (hInv : W32Inv st) : W32Inv (w32AllocStringFuel oom fuel st s).1 := by
  induction fuel generalizing st with
  | zero => exact hInv
  | succ fuel ih =>
    rcases Nat.lt_or_ge st.limit (st.next + (s.length + 1)) with h1 | h1
    · rcases Nat.lt_or_ge kchMaxCharAlloc (s.length + 1) with h2 | h2
      · rw [w32AllocFuel_tooLarge oom fuel st s h1 h2]
        exact hInv
      · cases oom with
        | true =>
          rw [w32AllocFuel_oom fuel st s h1 h2]
          exact hInv
        | false =>
          rw [w32AllocFuel_grow fuel st s h1 h2]
          exact ih _ (w32Inv_grow st (s.length + 1) hInv)
    · rw [w32AllocFuel_fast oom fuel st s h1]
      exact w32Inv_fast st s hInv h1

theorem stlInv_fuel (oom : Bool) (fuel : Nat) (st : StlState) (s : List Nat)
    (hInv : StlInv st) : StlInv (stlAllocStringFuel oom fuel st s).1 := by
  induction fuel generalizing st with
  | zero => exact hInv
  | succ fuel ih =>
    rcases Nat.lt_or_ge kMaxStringLengthCch (s.length + 1) with h2 | h2
    · rw [stlAllocFuel_tooLarge oom fuel st s h2]
      exact hInv
    · rcases Nat.lt_or_ge st.limit (st.next + (s.length + 1)) with h1 | h1
      · cases oom with
        | true =>
          rw [stlAllocFuel_oom fuel st s h2 h1]
          exact hInv
        | false =>
          rw [stlAllocFuel_grow fuel st s h2 h1]
          exact ih _ (stlInv_grow st hInv)
      · rw [stlAllocFuel_fast oom fuel st s h2 h1]
        exact stlInv_fast st s hInv h1

theorem w32Inv_reachable (st : W32State) (h : W32Reachable st) : W32Inv st := by
  induction h with
  | init sysGran cbMinChunkSize => exact w32Inv_init sysGran cbMinChunkSize
  | step oom st s hst ih => exact w32Inv_fuel oom 2 st s ih

theorem stlInv_reachable (st : StlState) (h : StlReachable st) : StlInv st := by
  induction h with
  | init => exact stlInv_init
  | step oom st s hst ih => exact stlInv_fuel oom 2 st s ih

/-! ## Allocated strings stay intact (Win32) -/

theorem w32ChunkData_cur (st : W32State) (n1 : Nat)
    (hcur : st.currentId = some n1) : w32CurData st = w32ChunkData st n1 := by
  simp [w32CurData, hcur]

theorem w32Settled_fast (st : W32State) (r : StrRef) (s0 s : List Nat)
    (hInv : W32Inv st) (h : st.next + (s.length + 1) ≤ st.limit)
    (hS : W32Settled st r s0) : W32Settled (w32FastState st s) r s0 := by
  obtain ⟨hcur, hpos⟩ := w32Inv_current_some st hInv (by omega)
  obtain ⟨⟨hb1, hb2, hb3, hb4⟩, hfr⟩ := hS
  have hlen : (w32FastState st s).chunks.length = st.chunks.length := by
    simp [w32FastState, length_listModify]
  by_cases hid : r.chunkId = st.currentId.getD 0
  · -- the reference lives in the current chunk: its region is below `next`
    have hid2 : r.chunkId = st.chunks.length - 1 := by rw [hid, hcur]; rfl
    have hfr2 : r.off + s0.length < st.next := hfr (by omega)
    have hdata : w32ChunkData (w32FastState st s) r.chunkId =
        writeChars (w32ChunkData st r.chunkId) st.next s := by
      have := w32CurData_fast st s hInv h
      rw [w32ChunkData_cur st (st.chunks.length - 1) hcur] at this
      have hcur2 : (w32FastState st s).currentId = some (st.chunks.length - 1) := hcur
      rw [w32ChunkData_cur (w32FastState st s) (st.chunks.length - 1) hcur2] at this
      rw [hid2]
      exact this
    refine ⟨⟨?_, ?_, ?_, ?_⟩, ?_⟩
    · omega
    · rw [hdata, length_writeChars]; omega
    · intro i hi
      rw [hdata, charAt_writeChars_lt _ _ _ _ (by omega)]
      exact hb3 i hi
    · rw [hdata, charAt_writeChars_lt _ _ _ _ (by omega)]
      exact hb4
    · intro hpre
      show r.off + s0.length < st.next + (s.length + 1)
      omega
  · -- the reference lives in an older chunk: nothing there changes
    have hdata : w32ChunkData (w32FastState st s) r.chunkId = w32ChunkData st r.chunkId := by
      simp only [w32ChunkData, w32FastState]
      rw [getD_listModify_ne _ _ _ _ _ hid]
    refine ⟨⟨?_, ?_, ?_, ?_⟩, ?_⟩
    · omega
    · rw [hdata]; exact hb2
    · intro i hi; rw [hdata]; exact hb3 i hi
    · rw [hdata]; exact hb4
    · intro hpre
      exfalso
      have : r.chunkId = st.chunks.length - 1 := by omega
      rw [hcur] at hid
      exact hid (by simpa using this)

theorem w32Settled_grow (st : W32State) (r : StrRef) (s0 : List Nat) (cch : Nat)
    (hS : W32Settled st r s0) : W32Settled (w32GrowState st cch) r s0 := by
  obtain ⟨⟨hb1, hb2, hb3, hb4⟩, hfr⟩ := hS
  have hlen : (w32GrowState st cch).chunks.length = st.chunks.length + 1 := by
    simp [w32GrowState]
  have hdata : w32ChunkData (w32GrowState st cch) r.chunkId = w32ChunkData st r.chunkId := by
    simp only [w32ChunkData, w32GrowState]
    rw [getD_append_lt _ _ _ _ hb1]
  refine ⟨⟨?_, ?_, ?_, ?_⟩, ?_⟩
  · omega
  · rw [hdata]; exact hb2
  · intro i hi; rw [hdata]; exact hb3 i hi
  · rw [hdata]; exact hb4
  · intro hpre
    omega

theorem w32Settled_fuel (oom : Bool) (fuel : Nat) (st : W32State) (r : StrRef)
    (s0 s : List Nat) (hInv : W32Inv st) (hS : W32Settled st r s0) :
    W32Settled (w32AllocStringFuel oom fuel st s).1 r s0 := by
  induction fuel generalizing st with
  | zero => exact hS
  | succ fuel ih =>
    rcases Nat.lt_or_ge st.limit (st.next + (s.length + 1)) with h1 | h1
    · rcases Nat.lt_or_ge kchMaxCharAlloc (s.length + 1) with h2 | h2
      · rw [w32AllocFuel_tooLarge oom fuel st s h1 h2]; exact hS
      · cases oom with
        | true => rw [w32AllocFuel_oom fuel st s h1 h2]; exact hS
        | false =>
          rw [w32AllocFuel_grow fuel st s h1 h2]
          exact ih _ (w32Inv_grow st (s.length + 1) hInv)
            (w32Settled_grow st r s0 (s.length + 1) hS)
    · rw [w32AllocFuel_fast oom fuel st s h1]
      exact w32Settled_fast st r s0 s hInv h1 hS

/-- The string just allocated by a successful fast path is settled. -/
theorem w32Settled_fastSelf (st : W32State) (s : List Nat) (hInv : W32Inv st)
    (h : st.next + (s.length + 1) ≤ st.limit) :
    W32Settled (w32FastState st s) ⟨st.currentId.getD 0, st.next⟩ s := by
  obtain ⟨hcur, hpos⟩ := w32Inv_current_some st hInv (by omega)
  have hlen : (w32FastState st s).chunks.length = st.chunks.length := by
    simp [w32FastState, length_listModify]
  have hdata : w32ChunkData (w32FastState st s) (st.currentId.getD 0) =
      writeChars (w32ChunkData st (st.currentId.getD 0)) st.next s := by
    have := w32CurData_fast st s hInv h
    rw [w32ChunkData_cur st (st.chunks.length - 1) hcur] at this
    have hcur2 : (w32FastState st s).currentId = some (st.chunks.length - 1) := hcur
    rw [w32ChunkData_cur (w32FastState st s) (st.chunks.length - 1) hcur2] at this
    rw [hcur]
    exact this
  have hlim : st.limit = (w32ChunkData st (st.currentId.getD 0)).length := by
    rw [hcur]
    show st.limit = (w32ChunkData st (st.chunks.length - 1)).length
    rw [← w32ChunkData_cur st (st.chunks.length - 1) hcur]
    exact hInv.limit_eq
  refine ⟨⟨?_, ?_, ?_, ?_⟩, ?_⟩
  · show st.currentId.getD 0 < (w32FastState st s).chunks.length
    rw [hlen, hcur]
    show st.chunks.length - 1 < st.chunks.length
    omega
  · show st.next + s.length < _
    rw [hdata, length_writeChars]
    omega
  · intro i hi
    show charAt (w32ChunkData (w32FastState st s) (st.currentId.getD 0)) (st.next + i) = _
    rw [hdata]
    exact charAt_writeChars_in _ _ _ _ hi (by omega)
  · show charAt (w32ChunkData (w32FastState st s) (st.currentId.getD 0)) (st.next + s.length) = 0
    rw [hdata, charAt_writeChars_ge _ _ _ _ (by omega)]
    have := hInv.zeros (st.next + s.length) (by omega) (by omega)
    rw [w32ChunkData_cur st (st.chunks.length - 1) hcur] at this
    rw [hcur]
    exact this
  · intro hpre
    show st.next + s.length < st.next + (s.length + 1)
    omega

/-- Any successful `AllocString` call returns a settled reference to its
source string. -/
theorem w32AllocFuel_ok_settled (oom : Bool) (fuel : Nat) (st st2 : W32State)
    (s : List Nat) (r : StrRef) (hInv : W32Inv st)
    (heq : w32AllocStringFuel oom fuel st s = (st2, Except.ok r)) :
    W32Settled st2 r s := by
  induction fuel generalizing st with
  | zero => simp [w32AllocStringFuel] at heq
  | succ fuel ih =>
    rcases Nat.lt_or_ge st.limit (st.next + (s.length + 1)) with h1 | h1
    · rcases Nat.lt_or_ge kchMaxCharAlloc (s.length + 1) with h2 | h2
      · rw [w32AllocFuel_tooLarge oom fuel st s h1 h2] at heq
        simp at heq
      · cases oom with
        | true =>
          rw [w32AllocFuel_oom fuel st s h1 h2] at heq
          simp at heq
        | false =>
          rw [w32AllocFuel_grow fuel st s h1 h2] at heq
          exact ih _ (w32Inv_grow st (s.length + 1) hInv) heq
    · rw [w32AllocFuel_fast oom fuel st s h1] at heq
      obtain ⟨heq1, heq2⟩ := Prod.mk.injEq .. ▸ heq
      cases heq
      exact w32Settled_fastSelf st s hInv h1

theorem w32Alloc_ok_settled (oom : Bool) (st st2 : W32State) (s : List Nat)
    (r : StrRef) (hInv : W32Inv st)
    (heq : w32AllocString oom st s = (st2, Except.ok r)) : W32Settled st2 r s :=
  w32AllocFuel_ok_settled oom 2 st st2 s r hInv heq

/-- With memory available, any request within the length limit succeeds. -/
theorem w32Alloc_ok_of_le (st : W32State) (s : List Nat) (hg : 0 < st.gran)
    (hlen : s.length + 1 ≤ kchMaxCharAlloc) :
    ∃ st2 r, w32AllocString false st s = (st2, Except.ok r) := by
  rcases Nat.lt_or_ge st.limit (st.next + (s.length + 1)) with h1 | h1
  · exact ⟨_, _, w32Alloc_slow st s h1 hlen hg⟩
  · exact ⟨_, _, w32Alloc_fast false st s h1⟩

/-! ## Allocated strings stay intact (STL) -/

theorem stlChunkData_cur (st : StlState) (n1 : Nat)
    (hcur : st.current = some n1) : stlCurData st = stlChunkData st n1 := by
  simp [stlCurData, hcur]

theorem stlSettled_fast (st : StlState) (r : StrRef) (s0 s : List Nat)
    (hInv : StlInv st) (h : st.next + (s.length + 1) ≤ st.limit)
    (hS : StlSettled st r s0) : StlSettled (stlFastState st s) r s0 := by
  obtain ⟨hcur, hpos⟩ := stlInv_current_some st hInv (by omega)
  obtain ⟨⟨hb1, hb2, hb3, hb4⟩, hfr⟩ := hS
  have hlen : (stlFastState st s).chunks.length = st.chunks.length := by
    simp [stlFastState, length_listModify]
  by_cases hid : r.chunkId = st.current.getD 0
  · have hid2 : r.chunkId = st.chunks.length - 1 := by rw [hid, hcur]; rfl
    have hfr2 : r.off + s0.length < st.next := hfr (by omega)
    have hdata : stlChunkData (stlFastState st s) r.chunkId =
        writeChars (stlChunkData st r.chunkId) st.next s := by
      have := stlCurData_fast st s hInv h
      rw [stlChunkData_cur st (st.chunks.length - 1) hcur] at this
      have hcur2 : (stlFastState st s).current = some (st.chunks.length - 1) := hcur
      rw [stlChunkData_cur (stlFastState st s) (st.chunks.length - 1) hcur2] at this
      rw [hid2]
      exact this
    refine ⟨⟨?_, ?_, ?_, ?_⟩, ?_⟩
    · omega
    · rw [hdata, length_writeChars]; omega
    · intro i hi
      rw [hdata, charAt_writeChars_lt _ _ _ _ (by omega)]
      exact hb3 i hi
    · rw [hdata, charAt_writeChars_lt _ _ _ _ (by omega)]
      exact hb4
    · intro hpre
      show r.off + s0.length < st.next + (s.length + 1)
      omega
  · have hdata : stlChunkData (stlFastState st s) r.chunkId = stlChunkData st r.chunkId := by
      simp only [stlChunkData, stlFastState]
      rw [getD_listModify_ne _ _ _ _ _ hid]
    refine ⟨⟨?_, ?_, ?_, ?_⟩, ?_⟩
    · omega
    · rw [hdata]; exact hb2
    · intro i hi; rw [hdata]; exact hb3 i hi
    · rw [hdata]; exact hb4
    · intro hpre
      exfalso
      have : r.chunkId = st.chunks.length - 1 := by omega
      rw [hcur] at hid
      exact hid (by simpa using this)

theorem stlSettled_grow (st : StlState) (r : StrRef) (s0 : List Nat)
    (hS : StlSettled st r s0) : StlSettled (stlGrowState st) r s0 := by
  obtain ⟨⟨hb1, hb2, hb3, hb4⟩, hfr⟩ := hS
  have hlen : (stlGrowState st).chunks.length = st.chunks.length + 1 := by
    simp [stlGrowState]
  have hdata : stlChunkData (stlGrowState st) r.chunkId = stlChunkData st r.chunkId := by
    simp only [stlChunkData, stlGrowState]
    rw [getD_append_lt _ _ _ _ hb1]
  refine ⟨⟨?_, ?_, ?_, ?_⟩, ?_⟩
  · omega
  · rw [hdata]; exact hb2
  · intro i hi; rw [hdata]; exact hb3 i hi
  · rw [hdata]; exact hb4
  · intro hpre
    omega

theorem stlSettled_fuel (oom : Bool) (fuel : Nat) (st : StlState) (r : StrRef)
    (s0 s : List Nat) (hInv : StlInv st) (hS : StlSettled st r s0) :
    StlSettled (stlAllocStringFuel oom fuel st s).1 r s0 := by
  induction fuel generalizing st with
  | zero => exact hS
  | succ fuel ih =>
    rcases Nat.lt_or_ge kMaxStringLengthCch (s.length + 1) with h2 | h2
    · rw [stlAllocFuel_tooLarge oom fuel st s h2]; exact hS
    · rcases Nat.lt_or_ge st.limit (st.next + (s.length + 1)) with h1 | h1
      · cases oom with
        | true => rw [stlAllocFuel_oom fuel st s h2 h1]; exact hS
        | false =>
          rw [stlAllocFuel_grow fuel st s h2 h1]
          exact ih _ (stlInv_grow st hInv) (stlSettled_grow st r s0 hS)
      · rw [stlAllocFuel_fast oom fuel st s h2 h1]
        exact stlSettled_fast st r s0 s hInv h1 hS

theorem stlSettled_fastSelf (st : StlState) (s : List Nat) (hInv : StlInv st)
    (h : st.next + (s.length + 1) ≤ st.limit) :
    StlSettled (stlFastState st s) ⟨st.current.getD 0, st.next⟩ s := by
  obtain ⟨hcur, hpos⟩ := stlInv_current_some st hInv (by omega)
  have hlen : (stlFastState st s).chunks.length = st.chunks.length := by
    simp [stlFastState, length_listModify]
  have hdata : stlChunkData (stlFastState st s) (st.current.getD 0) =
      writeChars (stlChunkData st (st.current.getD 0)) st.next s := by
    have := stlCurData_fast st s hInv h
    rw [stlChunkData_cur st (st.chunks.length - 1) hcur] at this
    have hcur2 : (stlFastState st s).current = some (st.chunks.length - 1) := hcur
    rw [stlChunkData_cur (stlFastState st s) (st.chunks.length - 1) hcur2] at this
    rw [hcur]
    exact this
  have hlim : st.limit = (stlChunkData st (st.current.getD 0)).length := by
    rw [hcur]
    show st.limit = (stlChunkData st (st.chunks.length - 1)).length
    rw [← stlChunkData_cur st (st.chunks.length - 1) hcur]
    exact hInv.limit_eq
  refine ⟨⟨?_, ?_, ?_, ?_⟩, ?_⟩
  · show st.current.getD 0 < (stlFastState st s).chunks.length
    rw [hlen, hcur]
    show st.chunks.length - 1 < st.chunks.length
    omega
  · show st.next + s.length < _
    rw [hdata, length_writeChars]
    omega
  · intro i hi
    show charAt (stlChunkData (stlFastState st s) (st.current.getD 0)) (st.next + i) = _
    rw [hdata]
    exact charAt_writeChars_in _ _ _ _ hi (by omega)
  · show charAt (stlChunkData (stlFastState st s) (st.current.getD 0)) (st.next + s.length) = 0
    rw [hdata, charAt_writeChars_ge _ _ _ _ (by omega)]
    have := hInv.zeros (st.next + s.length) (by omega) (by omega)
    rw [stlChunkData_cur st (st.chunks.length - 1) hcur] at this
    rw [hcur]
    exact this
  · intro hpre
    show st.next + s.length < st.next + (s.length + 1)
    omega

theorem stlAllocFuel_ok_settled (oom : Bool) (fuel : Nat) (st st2 : StlState)
    (s : List Nat) (r : StrRef) (hInv : StlInv st)
    (heq : stlAllocStringFuel oom fuel st s = (st2, Except.ok r)) :
    StlSettled st2 r s := by
  induction fuel generalizing st with
  | zero => simp [stlAllocStringFuel] at heq
  | succ fuel ih =>
    rcases Nat.lt_or_ge kMaxStringLengthCch (s.length + 1) with h2 | h2
    · rw [stlAllocFuel_tooLarge oom fuel st s h2] at heq
      simp at heq
    · rcases Nat.lt_or_ge st.limit (st.next + (s.length + 1)) with h1 | h1
      · cases oom with
        | true =>
          rw [stlAllocFuel_oom fuel st s h2 h1] at heq
          simp at heq
        | false =>
          rw [stlAllocFuel_grow fuel st s h2 h1] at heq
          exact ih _ (stlInv_grow st hInv) heq
      · rw [stlAllocFuel_fast oom fuel st s h2 h1] at heq
        cases heq
        exact stlSettled_fastSelf st s hInv h1

theorem stlAlloc_ok_settled (oom : Bool) (st st2 : StlState) (s : List Nat)
    (r : StrRef) (hInv : StlInv st)
    (heq : stlAllocString oom st s = (st2, Except.ok r)) : StlSettled st2 r s :=
  stlAllocFuel_ok_settled oom 2 st st2 s r hInv heq

theorem stlAlloc_ok_of_le (st : StlState) (s : List Nat)
    (hlen : s.length + 1 ≤ kMaxStringLengthCch) :
    ∃ st2 r, stlAllocString false st s = (st2, Except.ok r) := by
  rcases Nat.lt_or_ge st.limit (st.next + (s.length + 1)) with h1 | h1
  · exact ⟨_, _, stlAlloc_slow st s hlen h1⟩
  · exact ⟨_, _, stlAlloc_fast false st s hlen h1⟩

/-! ## Sequences of allocations -/

theorem w32AllocFuel_gran (oom : Bool) (fuel : Nat) (st : W32State) (s : List Nat) :
    (w32AllocStringFuel oom fuel st s).1.gran = st.gran := by
  induction fuel generalizing st with
  | zero => rfl
  | succ fuel ih =>
    rcases Nat.lt_or_ge st.limit (st.next + (s.length + 1)) with h1 | h1
    · rcases Nat.lt_or_ge kchMaxCharAlloc (s.length + 1) with h2 | h2
      · rw [w32AllocFuel_tooLarge oom fuel st s h1 h2]
      · cases oom with
        | true => rw [w32AllocFuel_oom fuel st s h1 h2]
        | false =>
          rw [w32AllocFuel_grow fuel st s h1 h2]
          rw [ih]
          rfl
    · rw [w32AllocFuel_fast oom fuel st s h1]
      rfl

theorem w32Run_inv (inputs : List (List Nat)) (st : W32State) (hInv : W32Inv st) :
    W32Inv (w32Run st inputs).1 := by
  induction inputs generalizing st with
  | nil => exact hInv
  | cons s rest ih =>
    rw [w32Run]
    exact ih _ (w32Inv_fuel false 2 st s hInv)

theorem stlRun_inv (inputs : List (List Nat)) (st : StlState) (hInv : StlInv st) :
    StlInv (stlRun st inputs).1 := by
  induction inputs generalizing st with
  | nil => exact hInv
  | cons s rest ih =>
    rw [stlRun]
    exact ih _ (stlInv_fuel false 2 st s hInv)

theorem w32Run_settled (inputs : List (List Nat)) (st : W32State) (r : StrRef)
    (s0 : List Nat) (hInv : W32Inv st) (hS : W32Settled st r s0) :
    W32Settled (w32Run st inputs).1 r s0 := by
  induction inputs generalizing st with
  | nil => exact hS
  | cons s rest ih =>
    rw [w32Run]
    exact ih _ (w32Inv_fuel false 2 st s hInv) (w32Settled_fuel false 2 st r s0 s hInv hS)

theorem stlRun_settled (inputs : List (List Nat)) (st : StlState) (r : StrRef)
    (s0 : List Nat) (hInv : StlInv st) (hS : StlSettled st r s0) :
    StlSettled (stlRun st inputs).1 r s0 := by
  induction inputs generalizing st with
  | nil => exact hS
  | cons s rest ih =>
    rw [stlRun]
    exact ih _ (stlInv_fuel false 2 st s hInv) (stlSettled_fuel false 2 st r s0 s hInv hS)

/-- Every call of a sequence of in-limit requests on a `CStringPoolAllocator`
succeeds, and at the end of the sequence every returned pointer still reads
back as its source string. -/
theorem w32Run_ok (inputs : List (List Nat)) (st : W32State) (hInv : W32Inv st)
    (hg : 0 < st.gran) (hlen : ∀ s ∈ inputs, s.length + 1 ≤ kchMaxCharAlloc) :
    (w32Run st inputs).2.length = inputs.length ∧
    ∀ i, i < inputs.length →
      ∃ r, (w32Run st inputs).2.getD i (Except.error AllocError.noFuel) = Except.ok r ∧
        w32ReadBack (w32Run st inputs).1 r (inputs.getD i []) := by
  induction inputs generalizing st with
  | nil =>
    refine ⟨rfl, ?_⟩
    intro i hi
    simp at hi
  | cons s rest ih =>
    obtain ⟨st2, r, heq⟩ := w32Alloc_ok_of_le st s hg (hlen s (by simp))
    have hS := w32Alloc_ok_settled false st st2 s r hInv heq
    have hInv2 : W32Inv st2 := by
      have := w32Inv_fuel false 2 st s hInv
      rw [w32AllocString] at heq
      rw [heq] at this
      exact this
    have hg2 : 0 < st2.gran := by
      have h3 := w32AllocFuel_gran false 2 st s
      rw [show w32AllocStringFuel false 2 st s = (st2, Except.ok r) from heq] at h3
      simp at h3
      omega
    have hrw : w32Run st (s :: rest) =
        ((w32Run st2 rest).1, Except.ok r :: (w32Run st2 rest).2) := by
      rw [w32Run]
      rw [show w32AllocString false st s = (st2, Except.ok r) from heq]
    obtain ⟨ihl, ihp⟩ := ih st2 hInv2 hg2 (fun s2 hs2 => hlen s2 (by simp [hs2]))
    rw [hrw]
    refine ⟨by simp [ihl], ?_⟩
    intro i hi
    cases i with
    | zero =>
      refine ⟨r, rfl, ?_⟩
      have := w32Run_settled rest st2 r s hInv2 hS
      exact this.1
    | succ i2 =>
      obtain ⟨r2, hr2a, hr2b⟩ := ihp i2 (by simp at hi; omega)
      exact ⟨r2, by simpa using hr2a, by simpa using hr2b⟩

/-- Every call of a sequence of in-limit requests on a `StringPoolAllocator`
succeeds, and at the end of the sequence every returned pointer still reads
back as its source string. -/
theorem stlRun_ok (inputs : List (List Nat)) (st : StlState) (hInv : StlInv st)
    (hlen : ∀ s ∈ inputs, s.length + 1 ≤ kMaxStringLengthCch) :
    (stlRun st inputs).2.length = inputs.length ∧
    ∀ i, i < inputs.length →
      ∃ r, (stlRun st inputs).2.getD i (Except.error AllocError.noFuel) = Except.ok r ∧
        stlReadBack (stlRun st inputs).1 r (inputs.getD i []) := by
  induction inputs generalizing st with
  | nil =>
    refine ⟨rfl, ?_⟩
    intro i hi
    simp at hi
  | cons s rest ih =>
    obtain ⟨st2, r, heq⟩ := stlAlloc_ok_of_le st s (hlen s (by simp))
    have hS := stlAlloc_ok_settled false st st2 s r hInv heq
    have hInv2 : StlInv st2 := by
      have := stlInv_fuel false 2 st s hInv
      rw [stlAllocString] at heq
      rw [heq] at this
      exact this
    have hrw : stlRun st (s :: rest) =
        ((stlRun st2 rest).1, Except.ok r :: (stlRun st2 rest).2) := by
      rw [stlRun]
      rw [show stlAllocString false st s = (st2, Except.ok r) from heq]
    obtain ⟨ihl, ihp⟩ := ih st2 hInv2 (fun s2 hs2 => hlen s2 (by simp [hs2]))
    rw [hrw]
    refine ⟨by simp [ihl], ?_⟩
    intro i hi
    cases i with
    | zero =>
      refine ⟨r, rfl, ?_⟩
      have := stlRun_settled rest st2 r s hInv2 hS
      exact this.1
    | succ i2 =>
      obtain ⟨r2, hr2a, hr2b⟩ := ihp i2 (by simp at hi; omega)
      exact ⟨r2, by simpa using hr2a, by simpa using hr2b⟩

/-! ## The teardown chain walk -/

/-- On a chunk list whose `prev` fields form the acquisition chain, the
`Destroy` loop started at chunk `k - 1` frees exactly chunks
`k-1, k-2, …, 0`, given at least `k` loop iterations of fuel. -/
theorem w32FreeOrder_chain (chunks : List W32Chunk)
    (hprev : ∀ i, i < chunks.length →
      (chunks.getD i ⟨[], none⟩).prev = if i = 0 then none else some (i - 1)) :
    ∀ k fuel, k ≤ chunks.length → k ≤ fuel →
      w32FreeOrder chunks fuel (if k = 0 then none else some (k - 1)) =
        (List.range k).reverse := by
  intro k
  induction k with
  | zero =>
    intro fuel _ _
    cases fuel <;> simp [w32FreeOrder]
  | succ k ih =>
    intro fuel hk hf
    obtain ⟨fuel2, rfl⟩ : ∃ f2, fuel = f2 + 1 := ⟨fuel - 1, by omega⟩
    rw [if_neg (by omega)]
    show w32FreeOrder chunks (fuel2 + 1) (some (k + 1 - 1)) = _
    have hks : k + 1 - 1 = k := by omega
    rw [hks, w32FreeOrder]
    rw [hprev k (by omega)]
    rw [ih fuel2 (by omega) (by omega)]
    rw [List.range_succ]
    simp

/-! ## Characterization of successful calls (used for disjointness) -/

theorem w32AllocFuel_ok_cases (oom : Bool) (fuel : Nat) (st st2 : W32State)
    (s : List Nat) (r : StrRef)
    (heq : w32AllocStringFuel oom fuel st s = (st2, Except.ok r)) :
    (st.next + (s.length + 1) ≤ st.limit ∧ r = ⟨st.currentId.getD 0, st.next⟩) ∨
    (st.limit < st.next + (s.length + 1) ∧ st.chunks.length ≤ r.chunkId ∧ r.off = 0) := by
  induction fuel generalizing st with
  | zero => simp [w32AllocStringFuel] at heq
  | succ fuel ih =>
    rcases Nat.lt_or_ge st.limit (st.next + (s.length + 1)) with h1 | h1
    · rcases Nat.lt_or_ge kchMaxCharAlloc (s.length + 1) with h2 | h2
      · rw [w32AllocFuel_tooLarge oom fuel st s h1 h2] at heq
        simp at heq
      · cases oom with
        | true =>
          rw [w32AllocFuel_oom fuel st s h1 h2] at heq
          simp at heq
        | false =>
          rw [w32AllocFuel_grow fuel st s h1 h2] at heq
          rcases ih _ heq with ⟨hca, hcb⟩ | ⟨hca, hcb, hcc⟩
          · refine Or.inr ⟨h1, ?_, ?_⟩
            · rw [hcb]
              show st.chunks.length ≤ (w32GrowState st (s.length + 1)).currentId.getD 0
              simp [w32GrowState]
            · rw [hcb]
              simp [w32GrowState]
          · refine Or.inr ⟨h1, ?_, hcc⟩
            have : (w32GrowState st (s.length + 1)).chunks.length = st.chunks.length + 1 := by
              simp [w32GrowState]
            omega
    · rw [w32AllocFuel_fast oom fuel st s h1] at heq
      cases heq
      exact Or.inl ⟨h1, rfl⟩

theorem stlAllocFuel_ok_cases (oom : Bool) (fuel : Nat) (st st2 : StlState)
    (s : List Nat) (r : StrRef)
    (heq : stlAllocStringFuel oom fuel st s = (st2, Except.ok r)) :
    (st.next + (s.length + 1) ≤ st.limit ∧ r = ⟨st.current.getD 0, st.next⟩) ∨
    (st.limit < st.next + (s.length + 1) ∧ st.chunks.length ≤ r.chunkId ∧ r.off = 0) := by
  induction fuel generalizing st with
  | zero => simp [stlAllocStringFuel] at heq
  | succ fuel ih =>
    rcases Nat.lt_or_ge kMaxStringLengthCch (s.length + 1) with h2 | h2
    · rw [stlAllocFuel_tooLarge oom fuel st s h2] at heq
      simp at heq
    · rcases Nat.lt_or_ge st.limit (st.next + (s.length + 1)) with h1 | h1
      · cases oom with
        | true =>
          rw [stlAllocFuel_oom fuel st s h2 h1] at heq
          simp at heq
        | false =>
          rw [stlAllocFuel_grow fuel st s h2 h1] at heq
          rcases ih _ heq with ⟨hca, hcb⟩ | ⟨hca, hcb, hcc⟩
          · refine Or.inr ⟨h1, ?_, ?_⟩
            · rw [hcb]
              show st.chunks.length ≤ (stlGrowState st).current.getD 0
              simp [stlGrowState]
            · rw [hcb]
              simp [stlGrowState]
          · refine Or.inr ⟨h1, ?_, hcc⟩
            have : (stlGrowState st).chunks.length = st.chunks.length + 1 := by
              simp [stlGrowState]
            omega
      · rw [stlAllocFuel_fast oom fuel st s h2 h1] at heq
        cases heq
        exact Or.inl ⟨h1, rfl⟩

theorem w32Inv_from (st st2 : W32State) (hInv : W32Inv st)
    (h : W32ReachableFrom st st2) : W32Inv st2 := by
  induction h with
  | refl st => exact hInv
  | step oom st st1 s hst ih => exact w32Inv_fuel oom 2 st1 s (ih hInv)

theorem stlInv_from (st st2 : StlState) (hInv : StlInv st)
    (h : StlReachableFrom st st2) : StlInv st2 := by
  induction h with
  | refl st => exact hInv
  | step oom st st1 s hst ih => exact stlInv_fuel oom 2 st1 s (ih hInv)

theorem w32Settled_from (st st2 : W32State) (r : StrRef) (s0 : List Nat)
    (hInv : W32Inv st) (hS : W32Settled st r s0)
    (h : W32ReachableFrom st st2) : W32Settled st2 r s0 := by
  induction h with
  | refl st => exact hS
  | step oom st st1 s hst ih =>
    exact w32Settled_fuel oom 2 st1 r s0 s (w32Inv_from st st1 hInv hst) (ih hInv hS)

theorem stlSettled_from (st st2 : StlState) (r : StrRef) (s0 : List Nat)
    (hInv : StlInv st) (hS : StlSettled st r s0)
    (h : StlReachableFrom st st2) : StlSettled st2 r s0 := by
  induction h with
  | refl st => exact hS
  | step oom st st1 s hst ih =>
    exact stlSettled_fuel oom 2 st1 r s0 s (stlInv_from st st1 hInv hst) (ih hInv hS)

/-! ## Claim theorems -/

/-- C1: for every valid `AllocString` call that succeeds, reading back the
returned pointer as a NUL-terminated character sequence yields exactly the
source string `[begin, end)`: character-for-character equality over the
`end - begin` source characters, with a NUL at offset `end - begin` — in
both the Win32 and the STL implementation. -/
theorem c1_alloc_roundtrip :
    (∀ (st st2 : W32State) (s : List Nat) (r : StrRef) (oom : Bool),
        W32Reachable st → w32AllocString oom st s = (st2, Except.ok r) →
        w32ReadBack st2 r s) ∧
    (∀ (st st2 : StlState) (s : List Nat) (r : StrRef) (oom : Bool),
        StlReachable st → stlAllocString oom st s = (st2, Except.ok r) →
        stlReadBack st2 r s) := by
  constructor
  · intro st st2 s r oom hreach heq
    exact (w32Alloc_ok_settled oom st st2 s r (w32Inv_reachable st hreach) heq).1
  · intro st st2 s r oom hreach heq
    exact (stlAlloc_ok_settled oom st st2 s r (stlInv_reachable st hreach) heq).1

/-- C3: `Destroy` walks the `phdrPrev` chain from the current chunk and
releases every chunk the allocator owns exactly once — the sequence of freed
chunks is exactly all acquired chunks, newest first, with no duplicate and no
omission, for any fuel bound at least the chunk count. -/
theorem c3_destroy_frees_each_chunk_once (st : W32State) (h : W32Reachable st) :
    (w32Destroy st).1 = (List.range st.chunks.length).reverse ∧
    (w32Destroy st).1.Nodup ∧
    (∀ i, i ∈ (w32Destroy st).1 ↔ i < st.chunks.length) ∧
    (∀ fuel, st.chunks.length ≤ fuel →
      w32FreeOrder st.chunks fuel st.currentId = (w32Destroy st).1) := by
  have hInv := w32Inv_reachable st h
  have hmain : ∀ fuel, st.chunks.length ≤ fuel →
      w32FreeOrder st.chunks fuel st.currentId = (List.range st.chunks.length).reverse := by
    intro fuel hf
    have hch := w32FreeOrder_chain st.chunks hInv.prev_eq st.chunks.length fuel le_rfl hf
    rw [hInv.cur_eq]
    exact hch
  have h1 : (w32Destroy st).1 = (List.range st.chunks.length).reverse := hmain _ le_rfl
  refine ⟨h1, ?_, ?_, ?_⟩
  · rw [h1]
    exact List.nodup_reverse.mpr (List.nodup_range _)
  · intro i
    rw [h1]
    simp [List.mem_reverse, List.mem_range]
  · intro fuel hf
    rw [h1]
    exact hmain fuel hf

/-- C4: every valid `AllocString` call terminates with at most one slow-path
step: fuel 2 (one retry) computes the same result as any larger recursion
bound and never exhausts, at most one chunk is acquired per call, and when the
slow path is taken with an in-limit request and available memory, exactly one
chunk is acquired and the retried request succeeds via the fast path of the
new chunk. -/
theorem c4_at_most_one_retry :
    (∀ (oom : Bool) (st : W32State) (s : List Nat), 0 < st.gran →
      (∀ fuel, 2 ≤ fuel → w32AllocStringFuel oom fuel st s = w32AllocString oom st s) ∧
      (w32AllocString oom st s).2 ≠ Except.error AllocError.noFuel ∧
      (w32AllocString oom st s).1.chunks.length ≤ st.chunks.length + 1 ∧
      (st.limit < st.next + (s.length + 1) → s.length + 1 ≤ kchMaxCharAlloc →
        oom = false →
        (w32AllocString oom st s).1.chunks.length = st.chunks.length + 1 ∧
        (w32AllocString oom st s).2 = Except.ok ⟨st.chunks.length, 0⟩)) ∧
    (∀ (oom : Bool) (st : StlState) (s : List Nat),
      (∀ fuel, 2 ≤ fuel → stlAllocStringFuel oom fuel st s = stlAllocString oom st s) ∧
      (stlAllocString oom st s).2 ≠ Except.error AllocError.noFuel ∧
      (stlAllocString oom st s).1.chunks.length ≤ st.chunks.length + 1 ∧
      (s.length + 1 ≤ kMaxStringLengthCch → st.limit < st.next + (s.length + 1) →
        oom = false →
        (stlAllocString oom st s).1.chunks.length = st.chunks.length + 1 ∧
        (stlAllocString oom st s).2 = Except.ok ⟨st.chunks.length, 0⟩)) := by
  constructor
  · intro oom st s hg
    have hlenfast : ∀ st0 : W32State, (w32FastState st0 s).chunks.length = st0.chunks.length := by
      intro st0
      simp [w32FastState, length_listModify]
    have hlengrow : (w32GrowState st (s.length + 1)).chunks.length = st.chunks.length + 1 := by
      simp [w32GrowState]
    rcases Nat.lt_or_ge st.limit (st.next + (s.length + 1)) with h1 | h1
    · rcases Nat.lt_or_ge kchMaxCharAlloc (s.length + 1) with h2 | h2
      · refine ⟨?_, ?_, ?_, ?_⟩
        · intro fuel hf
          obtain ⟨f2, rfl⟩ : ∃ f2, fuel = f2 + 1 := ⟨fuel - 1, by omega⟩
          rw [w32AllocFuel_tooLarge oom f2 st s h1 h2,
              w32Alloc_tooLarge oom st s h1 h2]
        · rw [w32Alloc_tooLarge oom st s h1 h2]
          simp
        · rw [w32Alloc_tooLarge oom st s h1 h2]
          show st.chunks.length ≤ st.chunks.length + 1
          omega
        · intro _ hcontra _
          omega
      · cases oom with
        | true =>
          refine ⟨?_, ?_, ?_, ?_⟩
          · intro fuel hf
            obtain ⟨f2, rfl⟩ : ∃ f2, fuel = f2 + 1 := ⟨fuel - 1, by omega⟩
            rw [w32AllocFuel_oom f2 st s h1 h2, w32Alloc_oom st s h1 h2]
          · rw [w32Alloc_oom st s h1 h2]
            simp
          · rw [w32Alloc_oom st s h1 h2]
            show st.chunks.length ≤ st.chunks.length + 1
            omega
          · intro _ _ hcontra
            simp at hcontra
        | false =>
          have hslow := w32Alloc_slow st s h1 h2 hg
          have hcap : (w32GrowState st (s.length + 1)).next + (s.length + 1) ≤
              (w32GrowState st (s.length + 1)).limit := by
            show 0 + (s.length + 1) ≤ w32CapFor st.gran (s.length + 1)
            have := le_w32CapFor st.gran (s.length + 1) hg
            omega
          refine ⟨?_, ?_, ?_, ?_⟩
          · intro fuel hf
            obtain ⟨f2, rfl⟩ : ∃ f2, fuel = f2 + 1 := ⟨fuel - 1, by omega⟩
            obtain ⟨f3, rfl⟩ : ∃ f3, f2 = f3 + 1 := ⟨f2 - 1, by omega⟩
            rw [w32AllocFuel_grow (f3 + 1) st s h1 h2,
                w32AllocFuel_fast false f3 _ s hcap, hslow]
            rfl
          · rw [hslow]
            simp
          · rw [hslow]
            rw [show (w32FastState (w32GrowState st (s.length + 1)) s, Except.ok
              (⟨st.chunks.length, 0⟩ : StrRef)).1 = w32FastState (w32GrowState st (s.length + 1)) s from rfl]
            rw [hlenfast, hlengrow]
          · intro _ _ _
            constructor
            · rw [hslow]
              rw [show (w32FastState (w32GrowState st (s.length + 1)) s, Except.ok
                (⟨st.chunks.length, 0⟩ : StrRef)).1 = w32FastState (w32GrowState st (s.length + 1)) s from rfl]
              rw [hlenfast, hlengrow]
            · rw [hslow]
    · have hfast := w32Alloc_fast oom st s h1
      refine ⟨?_, ?_, ?_, ?_⟩
      · intro fuel hf
        obtain ⟨f2, rfl⟩ : ∃ f2, fuel = f2 + 1 := ⟨fuel - 1, by omega⟩
        rw [w32AllocFuel_fast oom f2 st s h1, hfast]
      · rw [hfast]
        simp
      · rw [hfast]
        rw [show (w32FastState st s, Except.ok
          (⟨st.currentId.getD 0, st.next⟩ : StrRef)).1 = w32FastState st s from rfl]
        rw [hlenfast]
        omega
      · intro hcontra _ _
        omega
  · intro oom st s
    have hlenfast : ∀ st0 : StlState, (stlFastState st0 s).chunks.length = st0.chunks.length := by
      intro st0
      simp [stlFastState, length_listModify]
    have hlengrow : (stlGrowState st).chunks.length = st.chunks.length + 1 := by
      simp [stlGrowState]
    rcases Nat.lt_or_ge kMaxStringLengthCch (s.length + 1) with h2 | h2
    · refine ⟨?_, ?_, ?_, ?_⟩
      · intro fuel hf
        obtain ⟨f2, rfl⟩ : ∃ f2, fuel = f2 + 1 := ⟨fuel - 1, by omega⟩
        rw [stlAllocFuel_tooLarge oom f2 st s h2, stlAlloc_tooLarge oom st s h2]
      · rw [stlAlloc_tooLarge oom st s h2]
        simp
      · rw [stlAlloc_tooLarge oom st s h2]
        show st.chunks.length ≤ st.chunks.length + 1
        omega
      · intro hcontra _ _
        omega
    · rcases Nat.lt_or_ge st.limit (st.next + (s.length + 1)) with h1 | h1
      · cases oom with
        | true =>
          refine ⟨?_, ?_, ?_, ?_⟩
          · intro fuel hf
            obtain ⟨f2, rfl⟩ : ∃ f2, fuel = f2 + 1 := ⟨fuel - 1, by omega⟩
            rw [stlAllocFuel_oom f2 st s h2 h1, stlAlloc_oom st s h2 h1]
          · rw [stlAlloc_oom st s h2 h1]
            simp
          · rw [stlAlloc_oom st s h2 h1]
            show st.chunks.length ≤ st.chunks.length + 1
            omega
          · intro _ _ hcontra
            simp at hcontra
        | false =>
          have hslow := stlAlloc_slow st s h2 h1
          have hcap : (stlGrowState st).next + (s.length + 1) ≤ (stlGrowState st).limit := by
            show 0 + (s.length + 1) ≤ kChunkSizeCch
            unfold kMaxStringLengthCch at h2
            unfold kChunkSizeCch
            omega
          refine ⟨?_, ?_, ?_, ?_⟩
          · intro fuel hf
            obtain ⟨f2, rfl⟩ : ∃ f2, fuel = f2 + 1 := ⟨fuel - 1, by omega⟩
            obtain ⟨f3, rfl⟩ : ∃ f3, f2 = f3 + 1 := ⟨f2 - 1, by omega⟩
            rw [stlAllocFuel_grow (f3 + 1) st s h2 h1,
                stlAllocFuel_fast false f3 _ s h2 hcap, hslow]
            rfl
          · rw [hslow]
            simp
          · rw [hslow]
            rw [show (stlFastState (stlGrowState st) s, Except.ok
              (⟨st.chunks.length, 0⟩ : StrRef)).1 = stlFastState (stlGrowState st) s from rfl]
            rw [hlenfast, hlengrow]
          · intro _ _ _
            constructor
            · rw [hslow]
              rw [show (stlFastState (stlGrowState st) s, Except.ok
                (⟨st.chunks.length, 0⟩ : StrRef)).1 = stlFastState (stlGrowState st) s from rfl]
              rw [hlenfast, hlengrow]
            · rw [hslow]
      · have hfast := stlAlloc_fast oom st s h2 h1
        refine ⟨?_, ?_, ?_, ?_⟩
        · intro fuel hf
          obtain ⟨f2, rfl⟩ : ∃ f2, fuel = f2 + 1 := ⟨fuel - 1, by omega⟩
          rw [stlAllocFuel_fast oom f2 st s h2 h1, hfast]
        · rw [hfast]
          simp
        · rw [hfast]
          rw [show (stlFastState st s, Except.ok
            (⟨st.current.getD 0, st.next⟩ : StrRef)).1 = stlFastState st s from rfl]
          rw [hlenfast]
          omega
        · intro _ hcontra _
          omega

/-- C5: if chunk acquisition fails on the slow path, the call fails with
`OutOfMemory` and the allocator state is returned completely unchanged; in
particular any request that fits the (old) current chunk still succeeds
afterwards via the fast path. -/
theorem c5_oom_preserves_state :
    (∀ (st : W32State) (s : List Nat),
       st.limit < st.next + (s.length + 1) → s.length + 1 ≤ kchMaxCharAlloc →
       w32AllocString true st s = (st, Except.error AllocError.outOfMemory)) ∧
    (∀ (st : StlState) (s : List Nat),
       s.length + 1 ≤ kMaxStringLengthCch → st.limit < st.next + (s.length + 1) →
       stlAllocString true st s = (st, Except.error AllocError.outOfMemory)) ∧
    (∀ (st : W32State) (s2 : List Nat) (oom : Bool),
       st.next + (s2.length + 1) ≤ st.limit →
       (w32AllocString oom st s2).2 = Except.ok ⟨st.currentId.getD 0, st.next⟩) ∧
    (∀ (st : StlState) (s2 : List Nat) (oom : Bool),
       s2.length + 1 ≤ kMaxStringLengthCch → st.next + (s2.length + 1) ≤ st.limit →
       (stlAllocString oom st s2).2 = Except.ok ⟨st.current.getD 0, st.next⟩) := by
  refine ⟨?_, ?_, ?_, ?_⟩
  · intro st s h1 h2
    exact w32Alloc_oom st s h1 h2
  · intro st s h1 h2
    exact stlAlloc_oom st s h1 h2
  · intro st s2 oom h
    rw [w32Alloc_fast oom st s2 h]
  · intro st s2 oom h1 h2
    rw [stlAlloc_fast oom st s2 h1 h2]

/-- C8: in every reachable state of either allocator `next ≤ limit` holds, the
current-chunk pointer is null exactly while no chunk has been acquired, and
teardown (`Destroy`) also leaves `next ≤ limit`. -/
theorem c8_cursor_invariant :
    (∀ st : W32State, W32Reachable st →
        st.next ≤ st.limit ∧ (st.currentId = none ↔ st.chunks = []) ∧
        (w32Destroy st).2.next ≤ (w32Destroy st).2.limit) ∧
    (∀ st : StlState, StlReachable st →
        st.next ≤ st.limit ∧ (st.current = none ↔ st.chunks = [])) := by
  constructor
  · intro st h
    have hInv := w32Inv_reachable st h
    refine ⟨hInv.next_le, ?_, by simp [w32Destroy]⟩
    rcases Nat.eq_zero_or_pos st.chunks.length with h0 | hp
    · have hnil : st.chunks = [] := List.length_eq_zero.mp h0
      constructor
      · intro _
        exact hnil
      · intro _
        rw [hInv.cur_eq, if_pos h0]
    · have hc : st.currentId = some (st.chunks.length - 1) := by
        rw [hInv.cur_eq, if_neg (by omega)]
      constructor
      · intro hn
        rw [hc] at hn
        simp at hn
      · intro he
        rw [he] at hp
        simp at hp
  · intro st h
    have hInv := stlInv_reachable st h
    refine ⟨hInv.next_le, ?_⟩
    rcases Nat.eq_zero_or_pos st.chunks.length with h0 | hp
    · have hnil : st.chunks = [] := List.length_eq_zero.mp h0
      constructor
      · intro _
        exact hnil
      · intro _
        rw [hInv.cur_eq, if_pos h0]
    · have hc : st.current = some (st.chunks.length - 1) := by
        rw [hInv.cur_eq, if_neg (by omega)]
      constructor
      · intro hn
        rw [hc] at hn
        simp at hn
      · intro he
        rw [he] at hp
        simp at hp

/-- C9: in every reachable state every character slot of the current chunk
from the cursor up to the limit still holds the NUL character, and therefore
the fast-path assertion `psz[cch - 1] == 0` holds on every successful
allocation even though `AllocString` never writes the terminating NUL. -/
theorem c9_unused_slots_zero :
    (∀ st : W32State, W32Reachable st →
       ∀ j, st.next ≤ j → j < st.limit → charAt (w32CurData st) j = 0) ∧
    (∀ (st st2 : W32State) (s : List Nat) (r : StrRef) (oom : Bool),
       W32Reachable st → w32AllocString oom st s = (st2, Except.ok r) →
       charAt (w32ChunkData st2 r.chunkId) (r.off + s.length) = 0) ∧
    (∀ st : StlState, StlReachable st →
       ∀ j, st.next ≤ j → j < st.limit → charAt (stlCurData st) j = 0) ∧
    (∀ (st st2 : StlState) (s : List Nat) (r : StrRef) (oom : Bool),
       StlReachable st → stlAllocString oom st s = (st2, Except.ok r) →
       charAt (stlChunkData st2 r.chunkId) (r.off + s.length) = 0) := by
  refine ⟨?_, ?_, ?_, ?_⟩
  · intro st h j hj1 hj2
    exact (w32Inv_reachable st h).zeros j hj1 hj2
  · intro st st2 s r oom h heq
    exact (w32Alloc_ok_settled oom st st2 s r (w32Inv_reachable st h) heq).1.2.2.2
  · intro st h j hj1 hj2
    exact (stlInv_reachable st h).zeros j hj1 hj2
  · intro st st2 s r oom h heq
    exact (stlAlloc_ok_settled oom st st2 s r (stlInv_reachable st h) heq).1.2.2.2

/-- C7: any two successful `AllocString` calls on the same allocator — the
second made after the first with arbitrarily many further `AllocString` calls
in between — return disjoint regions (either in different chunks or with
non-overlapping offset ranges), and every earlier allocated string's content,
including its terminating NUL, is left unchanged by the later allocation and
by every subsequent call, in both implementations. -/
theorem c7_disjoint_and_frame :
    (∀ (st st1 stm st2 : W32State) (s1 s2 : List Nat) (r1 r2 : StrRef) (oom1 oom2 : Bool),
       W32Reachable st →
       w32AllocString oom1 st s1 = (st1, Except.ok r1) →
       W32ReachableFrom st1 stm →
       w32AllocString oom2 stm s2 = (st2, Except.ok r2) →
       (r1.chunkId ≠ r2.chunkId ∨ r1.off + s1.length ≤ r2.off ∨
        r2.off + s2.length ≤ r1.off) ∧
       w32ReadBack st2 r1 s1 ∧
       (∀ stf : W32State, W32ReachableFrom st2 stf →
         w32ReadBack stf r1 s1 ∧ w32ReadBack stf r2 s2)) ∧
    (∀ (st st1 stm st2 : StlState) (s1 s2 : List Nat) (r1 r2 : StrRef) (oom1 oom2 : Bool),
       StlReachable st →
       stlAllocString oom1 st s1 = (st1, Except.ok r1) →
       StlReachableFrom st1 stm →
       stlAllocString oom2 stm s2 = (st2, Except.ok r2) →
       (r1.chunkId ≠ r2.chunkId ∨ r1.off + s1.length ≤ r2.off ∨
        r2.off + s2.length ≤ r1.off) ∧
       stlReadBack st2 r1 s1 ∧
       (∀ stf : StlState, StlReachableFrom st2 stf →
         stlReadBack stf r1 s1 ∧ stlReadBack stf r2 s2)) := by
  constructor
  · intro st st1 stm st2 s1 s2 r1 r2 oom1 oom2 hreach heq1 hfrom heq2
    have hInv := w32Inv_reachable st hreach
    have hInv1 : W32Inv st1 := by
      have h3 := w32Inv_fuel oom1 2 st s1 hInv
      rw [show w32AllocStringFuel oom1 2 st s1 = (st1, Except.ok r1) from heq1] at h3
      exact h3
    have hInvm : W32Inv stm := w32Inv_from st1 stm hInv1 hfrom
    have hInv2 : W32Inv st2 := by
      have h3 := w32Inv_fuel oom2 2 stm s2 hInvm
      rw [show w32AllocStringFuel oom2 2 stm s2 = (st2, Except.ok r2) from heq2] at h3
      exact h3
    have hS1 : W32Settled st1 r1 s1 := w32Alloc_ok_settled oom1 st st1 s1 r1 hInv heq1
    have hS1m : W32Settled stm r1 s1 := w32Settled_from st1 stm r1 s1 hInv1 hS1 hfrom
    have hS1f : W32Settled st2 r1 s1 := by
      have h3 := w32Settled_fuel oom2 2 stm r1 s1 s2 hInvm hS1m
      rw [show w32AllocStringFuel oom2 2 stm s2 = (st2, Except.ok r2) from heq2] at h3
      exact h3
    have hS2f : W32Settled st2 r2 s2 := w32Alloc_ok_settled oom2 stm st2 s2 r2 hInvm heq2
    have hb1 := hS1m.1.1
    refine ⟨?_, hS1f.1, ?_⟩
    · rcases w32AllocFuel_ok_cases oom2 2 stm st2 s2 r2 heq2 with ⟨hfa, hfb⟩ | ⟨_, hsb, _⟩
      · obtain ⟨hcur, hpos⟩ := w32Inv_current_some stm hInvm (by omega)
        by_cases hid : r1.chunkId = stm.chunks.length - 1
        · right
          left
          have hfr := hS1m.2 (by omega)
          rw [hfb]
          show r1.off + s1.length ≤ stm.next
          omega
        · left
          rw [hfb]
          show r1.chunkId ≠ stm.currentId.getD 0
          rw [hcur]
          simpa using hid
      · left
        omega
    · intro stf hf
      exact ⟨(w32Settled_from st2 stf r1 s1 hInv2 hS1f hf).1,
             (w32Settled_from st2 stf r2 s2 hInv2 hS2f hf).1⟩
  · intro st st1 stm st2 s1 s2 r1 r2 oom1 oom2 hreach heq1 hfrom heq2
    have hInv := stlInv_reachable st hreach
    have hInv1 : StlInv st1 := by
      have h3 := stlInv_fuel oom1 2 st s1 hInv
      rw [show stlAllocStringFuel oom1 2 st s1 = (st1, Except.ok r1) from heq1] at h3
      exact h3
    have hInvm : StlInv stm := stlInv_from st1 stm hInv1 hfrom
    have hInv2 : StlInv st2 := by
      have h3 := stlInv_fuel oom2 2 stm s2 hInvm
      rw [show stlAllocStringFuel oom2 2 stm s2 = (st2, Except.ok r2) from heq2] at h3
      exact h3
    have hS1 : StlSettled st1 r1 s1 := stlAlloc_ok_settled oom1 st st1 s1 r1 hInv heq1
    have hS1m : StlSettled stm r1 s1 := stlSettled_from st1 stm r1 s1 hInv1 hS1 hfrom
    have hS1f : StlSettled st2 r1 s1 := by
      have h3 := stlSettled_fuel oom2 2 stm r1 s1 s2 hInvm hS1m
      rw [show stlAllocStringFuel oom2 2 stm s2 = (st2, Except.ok r2) from heq2] at h3
      exact h3
    have hS2f : StlSettled st2 r2 s2 := stlAlloc_ok_settled oom2 stm st2 s2 r2 hInvm heq2
    have hb1 := hS1m.1.1
    refine ⟨?_, hS1f.1, ?_⟩
    · rcases stlAllocFuel_ok_cases oom2 2 stm st2 s2 r2 heq2 with ⟨hfa, hfb⟩ | ⟨_, hsb, _⟩
      · obtain ⟨hcur, hpos⟩ := stlInv_current_some stm hInvm (by omega)
        by_cases hid : r1.chunkId = stm.chunks.length - 1
        · right
          left
          have hfr := hS1m.2 (by omega)
          rw [hfb]
          show r1.off + s1.length ≤ stm.next
          omega
        · left
          rw [hfb]
          show r1.chunkId ≠ stm.current.getD 0
          rw [hcur]
          simpa using hid
      · left
        omega
    · intro stf hf
      exact ⟨(stlSettled_from st2 stf r1 s1 hInv2 hS1f hf).1,
             (stlSettled_from st2 stf r2 s2 hInv2 hS2f hf).1⟩

/-- C10: for every sequence of valid `AllocString` calls whose required
lengths (including the NUL) are at most 100000 characters, the Win32
implementation (default configuration, any positive system allocation
granularity) and the STL implementation are observationally equivalent: every
call succeeds in both, and each returned pointer reads back as the identical
character sequence (the common source string, NUL-terminated) in both. -/
theorem c10_observational_equivalence (sysGran : Nat) (hg : 0 < sysGran)
    (inputs : List (List Nat))
    (hlen : ∀ s ∈ inputs, s.length + 1 ≤ kMaxStringLengthCch) :
    (w32Run (w32Init sysGran kcbDefaultMinChunkSize) inputs).2.length = inputs.length ∧
    (stlRun stlInit inputs).2.length = inputs.length ∧
    (∀ i, i < inputs.length →
      ∃ rA rB,
        (w32Run (w32Init sysGran kcbDefaultMinChunkSize) inputs).2.getD i
            (Except.error AllocError.noFuel) = Except.ok rA ∧
        (stlRun stlInit inputs).2.getD i (Except.error AllocError.noFuel) = Except.ok rB ∧
        w32ReadBack (w32Run (w32Init sysGran kcbDefaultMinChunkSize) inputs).1 rA
            (inputs.getD i []) ∧
        stlReadBack (stlRun stlInit inputs).1 rB (inputs.getD i [])) := by
  have hg2 : 0 < (w32Init sysGran kcbDefaultMinChunkSize).gran := by
    have := le_roundUp (sizeofChunkHeader + kcbDefaultMinChunkSize) sysGran hg
    show 0 < roundUp (sizeofChunkHeader + kcbDefaultMinChunkSize) sysGran
    unfold sizeofChunkHeader kcbDefaultMinChunkSize at *
    omega
  have hlenW : ∀ s ∈ inputs, s.length + 1 ≤ kchMaxCharAlloc := by
    intro s hs
    have := hlen s hs
    unfold kMaxStringLengthCch at this
    unfold kchMaxCharAlloc
    omega
  obtain ⟨hwl, hwp⟩ := w32Run_ok inputs _ (w32Inv_init sysGran kcbDefaultMinChunkSize) hg2 hlenW
  obtain ⟨hsl, hsp⟩ := stlRun_ok inputs stlInit stlInv_init hlen
  refine ⟨hwl, hsl, ?_⟩
  intro i hi
  obtain ⟨rA, hA1, hA2⟩ := hwp i hi
  obtain ⟨rB, hB1, hB2⟩ := hsp i hi
  exact ⟨rA, rB, hA1, hB1, hA2, hB2⟩

/-! ## Projection lemmas used to evaluate concrete runs without
unfolding chunk contents -/

theorem stlFastState_next (st : StlState) (s : List Nat) :
    (stlFastState st s).next = st.next + (s.length + 1) := rfl

theorem stlFastState_limit (st : StlState) (s : List Nat) :
    (stlFastState st s).limit = st.limit := rfl

theorem stlGrowState_next (st : StlState) : (stlGrowState st).next = 0 := rfl

theorem stlGrowState_limit (st : StlState) :
    (stlGrowState st).limit = kChunkSizeCch := rfl

theorem w32FastState_next (st : W32State) (s : List Nat) :
    (w32FastState st s).next = st.next + (s.length + 1) := rfl

theorem w32FastState_limit (st : W32State) (s : List Nat) :
    (w32FastState st s).limit = st.limit := rfl

theorem w32FastState_currentId (st : W32State) (s : List Nat) :
    (w32FastState st s).currentId = st.currentId := rfl

theorem w32GrowState_next (st : W32State) (cch : Nat) :
    (w32GrowState st cch).next = 0 := rfl

theorem w32GrowState_limit (st : W32State) (cch : Nat) :
    (w32GrowState st cch).limit = w32CapFor st.gran cch := rfl

theorem w32GrowState_currentId (st : W32State) (cch : Nat) :
    (w32GrowState st cch).currentId = some st.chunks.length := rfl

/-- C2 counterexample: in the Win32 implementation the per-string length
check sits *after* the fast path, so an oversized request that fits the
current chunk's free space is served successfully instead of failing with
`AllocationTooLarge`.  Concretely: construct `CStringPoolAllocator` with a
4 MiB minimum chunk size (64 KiB system granularity), allocate the empty
string once (acquiring a chunk of 2129912 character slots, 2129911 of them
left free), then request a string of 1048577 characters — the required
length 1048578 exceeds `kchMaxCharAlloc = 1048576`, yet the call succeeds. -/
theorem c2_counterexample :
    W32Reachable (w32AllocString false (w32Init 65536 4194304) []).1 ∧
    kchMaxCharAlloc < (List.replicate 1048577 65).length + 1 ∧
    (w32AllocString false (w32AllocString false (w32Init 65536 4194304) []).1
        (List.replicate 1048577 65)).2 = Except.ok ⟨0, 1⟩ := by
  have hs1 : w32AllocString false (w32Init 65536 4194304) [] =
      (w32FastState (w32GrowState (w32Init 65536 4194304) 1) [],
       Except.ok ⟨0, 0⟩) := by
    have h := w32Alloc_slow (w32Init 65536 4194304) [] (by decide) (by decide) (by decide)
    exact h
  have hnext : (w32FastState (w32GrowState (w32Init 65536 4194304) 1) []).next = 1 := by
    decide
  have hlim : (w32FastState (w32GrowState (w32Init 65536 4194304) 1) []).limit = 2129912 := by
    decide
  have hcur : (w32FastState (w32GrowState (w32Init 65536 4194304) 1) []).currentId = some 0 := by
    decide
  have hfit : (w32FastState (w32GrowState (w32Init 65536 4194304) 1) []).next +
      ((List.replicate 1048577 65).length + 1) ≤
      (w32FastState (w32GrowState (w32Init 65536 4194304) 1) []).limit := by
    rw [hnext, hlim, List.length_replicate]
    norm_num
  have hs2 := w32Alloc_fast false _ (List.replicate 1048577 65) hfit
  refine ⟨?_, ?_, ?_⟩
  · exact W32Reachable.step false _ [] (W32Reachable.init 65536 4194304)
  · rw [List.length_replicate]
    decide
  · rw [hs1]
    show (w32AllocString false (w32FastState (w32GrowState (w32Init 65536 4194304) 1) [])
        (List.replicate 1048577 65)).2 = Except.ok ⟨0, 1⟩
    rw [hs2]
    show Except.ok (⟨(w32FastState (w32GrowState (w32Init 65536 4194304) 1) []).currentId.getD 0,
        (w32FastState (w32GrowState (w32Init 65536 4194304) 1) []).next⟩ : StrRef) =
      Except.ok ⟨0, 1⟩
    rw [hcur, hnext]
    rfl

/-- C2 (amended): an `AllocString` request whose required length exceeds the
per-string limit and — in the Win32 implementation — does not fit the current
chunk's free space fails with `AllocationTooLarge` and leaves the allocator
state completely unchanged, so subsequent valid allocations still succeed
(fitting requests succeed via the fast path on the unchanged state).  In the
STL implementation the length check precedes the fast path, so the failure
holds in every state; in the Win32 implementation an oversized request that
fits the current chunk is instead served successfully by the fast path. -/
theorem c2_oversize_rejection_amended :
    (∀ (st : W32State) (s : List Nat) (oom : Bool),
       st.limit < st.next + (s.length + 1) → kchMaxCharAlloc < s.length + 1 →
       w32AllocString oom st s = (st, Except.error AllocError.allocationTooLarge)) ∧
    (∀ (st : StlState) (s : List Nat) (oom : Bool),
       kMaxStringLengthCch < s.length + 1 →
       stlAllocString oom st s = (st, Except.error AllocError.allocationTooLarge)) ∧
    (∀ (st : W32State) (s2 : List Nat) (oom : Bool),
       st.next + (s2.length + 1) ≤ st.limit →
       (w32AllocString oom st s2).2 = Except.ok ⟨st.currentId.getD 0, st.next⟩) := by
  refine ⟨?_, ?_, ?_⟩
  · intro st s oom h1 h2
    exact w32Alloc_tooLarge oom st s h1 h2
  · intro st s oom h
    exact stlAlloc_tooLarge oom st s h
  · intro st s2 oom h
    rw [w32Alloc_fast oom st s2 h]

/-- C6 counterexample: a request needing exactly one character more than the
remaining fast-path capacity does *not* always trigger the slow path and
acquire a chunk: in the STL implementation, after allocating a 50000-character
string into the first 250000-slot chunk (cursor at 50001, 199999 slots free),
a request of 199999 + 1 = 200000 required characters exceeds
`kMaxStringLengthCch = 100000` and fails with `AllocationTooLarge`, acquiring
no chunk at all. -/
theorem c6_counterexample :
    StlReachable (stlAllocString false stlInit (List.replicate 50000 97)).1 ∧
    (List.replicate 199999 98).length + 1 =
      ((stlAllocString false stlInit (List.replicate 50000 97)).1.limit -
        (stlAllocString false stlInit (List.replicate 50000 97)).1.next) + 1 ∧
    (stlAllocString false (stlAllocString false stlInit (List.replicate 50000 97)).1
        (List.replicate 199999 98)).2 = Except.error AllocError.allocationTooLarge ∧
    (stlAllocString false (stlAllocString false stlInit (List.replicate 50000 97)).1
        (List.replicate 199999 98)).1.chunks.length =
      (stlAllocString false stlInit (List.replicate 50000 97)).1.chunks.length := by
  have hs1 : stlAllocString false stlInit (List.replicate 50000 97) =
      (stlFastState (stlGrowState stlInit) (List.replicate 50000 97),
       Except.ok ⟨0, 0⟩) := by
    have h := stlAlloc_slow stlInit (List.replicate 50000 97)
      (by rw [List.length_replicate]; decide)
      (by rw [List.length_replicate]; decide)
    exact h
  have e1 : (stlAllocString false stlInit (List.replicate 50000 97)).1 =
      stlFastState (stlGrowState stlInit) (List.replicate 50000 97) :=
    congrArg Prod.fst hs1
  have hnext : (stlFastState (stlGrowState stlInit) (List.replicate 50000 97)).next = 50001 := by
    rw [stlFastState_next, stlGrowState_next, List.length_replicate]
  have hlim : (stlFastState (stlGrowState stlInit) (List.replicate 50000 97)).limit = 250000 := by
    rw [stlFastState_limit, stlGrowState_limit]
    rfl
  have htL := stlAlloc_tooLarge false
    (stlFastState (stlGrowState stlInit) (List.replicate 50000 97))
    (List.replicate 199999 98) (by rw [List.length_replicate]; decide)
  have e2 := congrArg Prod.snd htL
  have e3 := congrArg Prod.fst htL
  refine ⟨?_, ?_, ?_, ?_⟩
  · exact StlReachable.step false stlInit (List.replicate 50000 97) StlReachable.init
  · rw [List.length_replicate, e1, hlim, hnext]
  · rw [e1]
    rw [show (stlAllocString false (stlFastState (stlGrowState stlInit)
        (List.replicate 50000 97)) (List.replicate 199999 98)).2 =
      Except.error AllocError.allocationTooLarge from e2]
  · rw [e1]
    rw [show (stlAllocString false (stlFastState (stlGrowState stlInit)
        (List.replicate 50000 97)) (List.replicate 199999 98)).1 =
      stlFastState (stlGrowState stlInit) (List.replicate 50000 97) from e3]

/-- C6 (amended): a request whose required length exactly equals the remaining
capacity `limit - next` is served by the fast path with no chunk acquired —
unconditionally in the Win32 implementation, and provided the required length
is within the per-string limit in the STL implementation; a request needing
one more character triggers the slow path and acquires exactly one new chunk,
provided the required length is within the per-string limit and chunk
acquisition succeeds. -/
theorem c6_capacity_boundary_amended :
    (∀ (st : W32State) (s : List Nat) (oom : Bool),
       st.next ≤ st.limit → s.length + 1 = st.limit - st.next →
       (w32AllocString oom st s).2 = Except.ok ⟨st.currentId.getD 0, st.next⟩ ∧
       (w32AllocString oom st s).1.chunks.length = st.chunks.length) ∧
    (∀ (st : StlState) (s : List Nat) (oom : Bool),
       st.next ≤ st.limit → s.length + 1 = st.limit - st.next →
       s.length + 1 ≤ kMaxStringLengthCch →
       (stlAllocString oom st s).2 = Except.ok ⟨st.current.getD 0, st.next⟩ ∧
       (stlAllocString oom st s).1.chunks.length = st.chunks.length) ∧
    (∀ (st : W32State) (s : List Nat),
       st.next + (s.length + 1) = st.limit + 1 → s.length + 1 ≤ kchMaxCharAlloc →
       0 < st.gran →
       (w32AllocString false st s).2 = Except.ok ⟨st.chunks.length, 0⟩ ∧
       (w32AllocString false st s).1.chunks.length = st.chunks.length + 1) ∧
    (∀ (st : StlState) (s : List Nat),
       st.next + (s.length + 1) = st.limit + 1 → s.length + 1 ≤ kMaxStringLengthCch →
       (stlAllocString false st s).2 = Except.ok ⟨st.chunks.length, 0⟩ ∧
       (stlAllocString false st s).1.chunks.length = st.chunks.length + 1) := by
  refine ⟨?_, ?_, ?_, ?_⟩
  · intro st s oom hle hex
    have hfit : st.next + (s.length + 1) ≤ st.limit := by omega
    rw [w32Alloc_fast oom st s hfit]
    exact ⟨rfl, by simp [w32FastState, length_listModify]⟩
  · intro st s oom hle hex hmax
    have hfit : st.next + (s.length + 1) ≤ st.limit := by omega
    rw [stlAlloc_fast oom st s hmax hfit]
    exact ⟨rfl, by simp [stlFastState, length_listModify]⟩
  · intro st s hone hmax hg
    have h1 : st.limit < st.next + (s.length + 1) := by omega
    rw [w32Alloc_slow st s h1 hmax hg]
    exact ⟨rfl, by simp [w32FastState, w32GrowState, length_listModify]⟩
  · intro st s hone hmax
    have h1 : st.limit < st.next + (s.length + 1) := by omega
    rw [stlAlloc_slow st s hmax h1]
    exact ⟨rfl, by simp [stlFastState, stlGrowState, length_listModify]⟩

/-! ## Witnesses: the claim theorems applied at concrete inputs -/

theorem c1_alloc_roundtrip_witness :
    w32ReadBack (w32AllocString false (w32Init 65536 32000) [104, 105]).1
      ⟨0, 0⟩ [104, 105] ∧
    stlReadBack (stlAllocString false stlInit [104, 105]).1 ⟨0, 0⟩ [104, 105] := by
  constructor
  · have hs := w32Alloc_slow (w32Init 65536 32000) [104, 105] (by decide) (by decide) (by decide)
    exact c1_alloc_roundtrip.1 (w32Init 65536 32000) _ [104, 105] ⟨0, 0⟩ false
      (W32Reachable.init 65536 32000) (by rw [hs]; rfl)
  · have hs := stlAlloc_slow stlInit [104, 105] (by decide) (by decide)
    exact c1_alloc_roundtrip.2 stlInit _ [104, 105] ⟨0, 0⟩ false StlReachable.init
      (by rw [hs]; rfl)

theorem c2_oversize_rejection_amended_witness :
    w32AllocString false (w32Init 65536 32000) (List.replicate 1048576 65) =
      (w32Init 65536 32000, Except.error AllocError.allocationTooLarge) ∧
    stlAllocString false stlInit (List.replicate 100000 97) =
      (stlInit, Except.error AllocError.allocationTooLarge) ∧
    (w32AllocString false (w32AllocString false (w32Init 65536 32000) [104, 105]).1 [107]).2 =
      Except.ok ⟨0, 3⟩ := by
  refine ⟨?_, ?_, ?_⟩
  · exact c2_oversize_rejection_amended.1 (w32Init 65536 32000) (List.replicate 1048576 65)
      false (by rw [List.length_replicate]; decide) (by rw [List.length_replicate]; decide)
  · exact c2_oversize_rejection_amended.2.1 stlInit (List.replicate 100000 97) false
      (by rw [List.length_replicate]; decide)
  · exact c2_oversize_rejection_amended.2.2 _ [107] false (by decide)

theorem c3_destroy_frees_each_chunk_once_witness :
    (w32Destroy (w32AllocString false (w32Init 65536 32000) [97]).1).1 = [0] := by
  have h := c3_destroy_frees_each_chunk_once _
    (W32Reachable.step false _ [97] (W32Reachable.init 65536 32000))
  have hlen : (w32AllocString false (w32Init 65536 32000) [97]).1.chunks.length = 1 := by
    decide
  rw [h.1, hlen]
  decide

theorem c4_at_most_one_retry_witness :
    (w32AllocString false (w32Init 65536 32000) [97]).2 ≠ Except.error AllocError.noFuel ∧
    (stlAllocString false stlInit [97]).2 ≠ Except.error AllocError.noFuel :=
  ⟨(c4_at_most_one_retry.1 false (w32Init 65536 32000) [97] (by decide)).2.1,
   (c4_at_most_one_retry.2 false stlInit [97]).2.1⟩

theorem c5_oom_preserves_state_witness :
    w32AllocString true (w32Init 65536 32000) [97] =
      (w32Init 65536 32000, Except.error AllocError.outOfMemory) ∧
    stlAllocString true stlInit [97] = (stlInit, Except.error AllocError.outOfMemory) ∧
    (w32AllocString false (w32AllocString false (w32Init 65536 32000) [104, 105]).1 [107]).2 =
      Except.ok ⟨0, 3⟩ ∧
    (stlAllocString false (stlAllocString false stlInit [104, 105]).1 [107]).2 =
      Except.ok ⟨0, 3⟩ := by
  refine ⟨?_, ?_, ?_, ?_⟩
  · exact c5_oom_preserves_state.1 (w32Init 65536 32000) [97] (by decide) (by decide)
  · exact c5_oom_preserves_state.2.1 stlInit [97] (by decide) (by decide)
  · exact c5_oom_preserves_state.2.2.1 _ [107] false (by decide)
  · exact c5_oom_preserves_state.2.2.2 _ [107] false (by decide) (by decide)

theorem c6_capacity_boundary_amended_witness :
    ((w32AllocString false ⟨[⟨List.replicate 32760 0, none⟩], some 0, 3, 32760, 65536⟩
        (List.replicate 32756 107)).2 = Except.ok ⟨0, 3⟩ ∧
     (w32AllocString false ⟨[⟨List.replicate 32760 0, none⟩], some 0, 3, 32760, 65536⟩
        (List.replicate 32756 107)).1.chunks.length = 1) ∧
    ((w32AllocString false ⟨[⟨List.replicate 32760 0, none⟩], some 0, 3, 32760, 65536⟩
        (List.replicate 32757 107)).2 = Except.ok ⟨1, 0⟩ ∧
     (w32AllocString false ⟨[⟨List.replicate 32760 0, none⟩], some 0, 3, 32760, 65536⟩
        (List.replicate 32757 107)).1.chunks.length = 2) ∧
    ((stlAllocString false ⟨[List.replicate 250000 0], some 0, 200000, 250000⟩
        (List.replicate 49999 98)).2 = Except.ok ⟨0, 200000⟩ ∧
     (stlAllocString false ⟨[List.replicate 250000 0], some 0, 200000, 250000⟩
        (List.replicate 49999 98)).1.chunks.length = 1) ∧
    ((stlAllocString false ⟨[List.replicate 250000 0], some 0, 200000, 250000⟩
        (List.replicate 50000 98)).2 = Except.ok ⟨1, 0⟩ ∧
     (stlAllocString false ⟨[List.replicate 250000 0], some 0, 200000, 250000⟩
        (List.replicate 50000 98)).1.chunks.length = 2) := by
  refine ⟨?_, ?_, ?_, ?_⟩
  · exact c6_capacity_boundary_amended.1 ⟨[⟨List.replicate 32760 0, none⟩], some 0, 3, 32760, 65536⟩
      (List.replicate 32756 107) false (by decide) (by rw [List.length_replicate]; try decide)
  · exact c6_capacity_boundary_amended.2.2.1 ⟨[⟨List.replicate 32760 0, none⟩], some 0, 3, 32760, 65536⟩
      (List.replicate 32757 107) (by rw [List.length_replicate]; try decide)
      (by rw [List.length_replicate]; try decide) (by decide)
  · exact c6_capacity_boundary_amended.2.1 ⟨[List.replicate 250000 0], some 0, 200000, 250000⟩
      (List.replicate 49999 98) false (by decide) (by rw [List.length_replicate]; try decide)
      (by rw [List.length_replicate]; try decide)
  · exact c6_capacity_boundary_amended.2.2.2 ⟨[List.replicate 250000 0], some 0, 200000, 250000⟩
      (List.replicate 50000 98) (by rw [List.length_replicate]; try decide)
      (by rw [List.length_replicate]; try decide)

theorem c7_disjoint_and_frame_witness :
    ((⟨0, 0⟩ : StrRef).chunkId ≠ (⟨0, 5⟩ : StrRef).chunkId ∨
     (⟨0, 0⟩ : StrRef).off + [104, 105].length ≤ (⟨0, 5⟩ : StrRef).off ∨
     (⟨0, 5⟩ : StrRef).off + [107].length ≤ (⟨0, 0⟩ : StrRef).off) ∧
    w32ReadBack (w32AllocString false
        (w32AllocString false
          (w32AllocString false (w32Init 65536 32000) [104, 105]).1 [120]).1
        [107]).1 ⟨0, 0⟩ [104, 105] := by
  have hs1 := w32Alloc_slow (w32Init 65536 32000) [104, 105] (by decide) (by decide) (by decide)
  have hfit2 : (w32AllocString false
      (w32AllocString false (w32Init 65536 32000) [104, 105]).1 [120]).1.next +
      ([107].length + 1) ≤
      (w32AllocString false
        (w32AllocString false (w32Init 65536 32000) [104, 105]).1 [120]).1.limit := by
    decide
  have hs2 := w32Alloc_fast false
    (w32AllocString false
      (w32AllocString false (w32Init 65536 32000) [104, 105]).1 [120]).1 [107] hfit2
  have h := c7_disjoint_and_frame.1 (w32Init 65536 32000)
    (w32AllocString false (w32Init 65536 32000) [104, 105]).1
    (w32AllocString false
      (w32AllocString false (w32Init 65536 32000) [104, 105]).1 [120]).1
    (w32AllocString false
      (w32AllocString false
        (w32AllocString false (w32Init 65536 32000) [104, 105]).1 [120]).1 [107]).1
    [104, 105] [107] ⟨0, 0⟩ ⟨0, 5⟩ false false
    (W32Reachable.init 65536 32000) (by rw [hs1]; rfl)
    (W32ReachableFrom.step false _ _ [120] (W32ReachableFrom.refl _))
    (by rw [hs2]; rfl)
  exact ⟨h.1, h.2.1⟩

theorem c8_cursor_invariant_witness :
    ((w32Init 65536 kcbDefaultMinChunkSize).next ≤ (w32Init 65536 kcbDefaultMinChunkSize).limit ∧
     ((w32Init 65536 kcbDefaultMinChunkSize).currentId = none ↔
       (w32Init 65536 kcbDefaultMinChunkSize).chunks = []) ∧
     (w32Destroy (w32Init 65536 kcbDefaultMinChunkSize)).2.next ≤
       (w32Destroy (w32Init 65536 kcbDefaultMinChunkSize)).2.limit) ∧
    (stlInit.next ≤ stlInit.limit ∧ (stlInit.current = none ↔ stlInit.chunks = [])) :=
  ⟨c8_cursor_invariant.1 _ (W32Reachable.init 65536 kcbDefaultMinChunkSize),
   c8_cursor_invariant.2 _ StlReachable.init⟩

theorem c9_unused_slots_zero_witness :
    charAt (w32ChunkData (w32AllocString false (w32Init 65536 32000) [104, 105]).1
      (⟨0, 0⟩ : StrRef).chunkId) ((⟨0, 0⟩ : StrRef).off + [104, 105].length) = 0 ∧
    charAt (stlChunkData (stlAllocString false stlInit [104, 105]).1
      (⟨0, 0⟩ : StrRef).chunkId) ((⟨0, 0⟩ : StrRef).off + [104, 105].length) = 0 := by
  constructor
  · have hs := w32Alloc_slow (w32Init 65536 32000) [104, 105] (by decide) (by decide) (by decide)
    exact c9_unused_slots_zero.2.1 (w32Init 65536 32000) _ [104, 105] ⟨0, 0⟩ false
      (W32Reachable.init 65536 32000) (by rw [hs]; rfl)
  · have hs := stlAlloc_slow stlInit [104, 105] (by decide) (by decide)
    exact c9_unused_slots_zero.2.2.2 stlInit _ [104, 105] ⟨0, 0⟩ false StlReachable.init
      (by rw [hs]; rfl)

theorem c10_observational_equivalence_witness :
    (w32Run (w32Init 65536 kcbDefaultMinChunkSize) [[104, 105], []]).2.length = 2 ∧
    (stlRun stlInit [[104, 105], []]).2.length = 2 := by
  have h := c10_observational_equivalence 65536 (by decide) [[104, 105], []] (by decide)
  exact ⟨h.1, h.2.1⟩
